import Mathlib

/-!
Verification of the Huizemark stock-fetching scripts
(`scripts/fetch_stock.py` and `scripts/fetch_stock1.py`).

The scripts are shallowly embedded: pure Python helpers become Lean
functions over `String` / `List Char`; the BeautifulSoup document is
modelled as a structure holding the results of the CSS/metadata queries
the code performs, together with the parsed JSON-LD blocks and the
visible text; the regular expressions of the source are implemented as
explicit matchers with Python search semantics (leftmost match,
ordered alternation, greedy quantifiers with backtracking).  Character
classes are modelled over the characters that actually occur in the
scraped data: `\d`, `\w`, `[A-Za-z]`, case mapping and title-casing are
taken on ASCII, and `\s` is the Python whitespace set.
-/

namespace FetchStock

/-- Python `\s` / `str.isspace` character set (the whitespace characters
Python treats as spaces in patterns and in `str.strip()`). -/
def pyWs (c : Char) : Bool :=
  c = ' ' || c = '\t' || c = '\n' || c = '\r' || c.val = 0x0B || c.val = 0x0C ||
  (0x1C ≤ c.val && c.val ≤ 0x1F) || c.val = 0x85 || c.val = 0xA0 ||
  c.val = 0x1680 || (0x2000 ≤ c.val && c.val ≤ 0x200A) ||
  c.val = 0x2028 || c.val = 0x2029 || c.val = 0x202F || c.val = 0x205F ||
  c.val = 0x3000

/-- Digit class `\d` (ASCII decimal digits). -/
def isDigitC (c : Char) : Bool := '0' ≤ c && c ≤ '9'

/-- The literal regex class `[A-Za-z]`. -/
def isAsciiAlpha (c : Char) : Bool :=
  ('A' ≤ c && c ≤ 'Z') || ('a' ≤ c && c ≤ 'z')

/-- Word-character class `\w` used by `\b` boundaries (ASCII model). -/
def isWordC (c : Char) : Bool := isAsciiAlpha c || isDigitC c || c = '_'

/-- ASCII lower-casing of one character (model of `str.lower`). -/
def lowerC (c : Char) : Char :=
  if 'A' ≤ c && c ≤ 'Z' then Char.ofNat (c.toNat + 32) else c

/-- ASCII upper-casing of one character (model of `str.upper`). -/
def upperC (c : Char) : Char :=
  if 'a' ≤ c && c ≤ 'z' then Char.ofNat (c.toNat - 32) else c

/-- `str.lower`. -/
def pyLower (s : String) : String := String.mk (s.data.map lowerC)

/-- `str.upper`. -/
def pyUpper (s : String) : String := String.mk (s.data.map upperC)

/-- Case-insensitive character comparison used by `re.I` patterns. -/
def charCI (a b : Char) : Bool := lowerC a = lowerC b

/-- Consume the literal `lit` case-insensitively at the head of `l`,
returning the remaining characters on success. -/
def matchLitCI : List Char → List Char → Option (List Char)
  | [], l => some l
  | _ :: _, [] => none
  | p :: ps, c :: cs => if charCI p c then matchLitCI ps cs else none

/-- Boolean prefix test on character lists (case-sensitive). -/
def listPrefix : List Char → List Char → Bool
  | [], _ => true
  | _ :: _, [] => false
  | p :: ps, c :: cs => p = c && listPrefix ps cs

/-- Python `str.startswith`. -/
def pyStartsWith (s pre : String) : Bool := listPrefix pre.data s.data

/-- Substring containment on character lists (Python `in` for strings). -/
def containsSubList (pat : List Char) : List Char → Bool
  | [] => listPrefix pat []
  | c :: t => listPrefix pat (c :: t) || containsSubList pat t

/-- Python `pat in s` substring test. -/
def strContains (s pat : String) : Bool := containsSubList pat.data s.data

/-- Value of a (non-empty) list of ASCII digits read in base ten;
`int()` applied to a digit string. -/
def digitsVal (l : List Char) : Nat :=
  l.foldl (fun acc c => 10 * acc + (c.toNat - '0'.toNat)) 0

/-- One pass of `re.sub(r"\s+", " ", s)`: every maximal whitespace run
is replaced by a single space.  `inRun` records whether the previous
character belonged to a whitespace run already rewritten. -/
def collapseWsAux : Bool → List Char → List Char
  | _, [] => []
  | inRun, c :: t =>
    if pyWs c then
      if inRun then collapseWsAux true t else ' ' :: collapseWsAux true t
    else c :: collapseWsAux false t

/-- Strip leading and trailing Python whitespace (`str.strip()`). -/
def stripWs (l : List Char) : List Char :=
  ((l.dropWhile pyWs).reverse.dropWhile pyWs).reverse

/-- `norm_space`: `re.sub(r"\s+", " ", s or "").strip()`. -/
def norm_space (s : String) : String :=
  String.mk (stripWs (collapseWsAux false s.data))

/-- `to_int_money`: strip every non-digit character and parse what is
left; an empty digit string (and `None`/empty input) gives `None`.
`fetch_stock1.py` has an identical copy called `to_number`. -/
def to_int_money (txt : String) : Option Nat :=
  let digits := txt.data.filter isDigitC
  if digits.isEmpty then none else some (digitsVal digits)

/-- `to_int`: first `\d+` run in the text, parsed; `None` when the text
holds no digit. -/
def to_int (txt : String) : Option Nat :=
  let rest := txt.data.dropWhile (fun c => !isDigitC c)
  match rest with
  | [] => none
  | _ :: _ => some (digitsVal (rest.takeWhile isDigitC))

/-- Python `str.title()` on ASCII: a letter is upper-cased when the
preceding character is not a letter, lower-cased otherwise. -/
def pyTitleAux : Bool → List Char → List Char
  | _, [] => []
  | prevAlpha, c :: t =>
    if isAsciiAlpha c then
      (if prevAlpha then lowerC c else upperC c) :: pyTitleAux true t
    else c :: pyTitleAux false t

/-- `str.title()`. -/
def pyTitle (s : String) : String := String.mk (pyTitleAux false s.data)

/-- `slug.replace("-", " ")`. -/
def dashToSpace (s : String) : String :=
  String.mk (s.data.map (fun c => if c = '-' then ' ' else c))

/-- `make_abs`: resolve a (possibly relative) link against the portal
host. -/
def make_abs (url : String) : String :=
  if pyStartsWith url "http" then url
  else if pyStartsWith url "/" then "https://www.huizemark.com" ++ url
  else "https://www.huizemark.com/" ++ url

/-! ### Regex matchers

Each compiled pattern of the scripts becomes an explicit matcher with
Python `re` semantics: the search scans start positions left to right,
alternatives are tried in written order, optional pieces are greedy and
backtrack into the continuation. -/

/-- Character class `[\d\s,.'’]` of `MONEY_RE`. -/
def moneyChar (c : Char) : Bool :=
  isDigitC c || pyWs c || c = ',' || c = '.' || c.val = 39 || c.val = 0x2019

/-- All matches of `MONEY_RE = (R\s*[\d\s,.'’]+)` in order
(`re.finditer`).  Because `\s` is contained in the bracket class, a
match is an `R`/`r` followed by the maximal run of class characters
(at least one).  `acc` is the reversed group currently being read. -/
def moneyFindAux : Option (List Char) → List Char → List String
  | none, [] => []
  | some g, [] => [String.mk g.reverse]
  | none, c :: t =>
    if charCI c 'r' && (match t.head? with | some d => moneyChar d | none => false)
    then moneyFindAux (some [c]) t
    else moneyFindAux none t
  | some g, c :: t =>
    if moneyChar c then moneyFindAux (some (c :: g)) t
    else
      String.mk g.reverse ::
        (if charCI c 'r' && (match t.head? with | some d => moneyChar d | none => false)
         then moneyFindAux (some [c]) t
         else moneyFindAux none t)

/-- `MONEY_RE.finditer(text)`, groups in order of occurrence. -/
def moneyFindAll (l : List Char) : List String := moneyFindAux none l

/-- `MONEY_RE.search(text)` (group 1, which is the whole match). -/
def moneySearch (l : List Char) : Option String := (moneyFindAll l).head?

/-- The glue `\s*[puncts]?\s*` appearing between a label and its value:
skip whitespace, at most one punctuation character, more whitespace.
All bracket sets used contain no whitespace-class overlap that could
change the reachable end position. -/
def glueTail (puncts : List Char) (l : List Char) : List Char :=
  let r := l.dropWhile pyWs
  match r with
  | c :: t => if puncts.contains c then t.dropWhile pyWs else r
  | [] => r

/-- Take exactly `k` characters of class `[A-Za-z]`. -/
def takeAlphaK : Nat → List Char → Option (List Char × List Char)
  | 0, l => some ([], l)
  | _ + 1, [] => none
  | k + 1, c :: t =>
    if isAsciiAlpha c then (takeAlphaK k t).map (fun p => (c :: p.1, p.2)) else none

/-- The value group `([A-Za-z]{0,3}\d{5,}|\d{5,})` of the reference
patterns: up to three letters (greedy) followed by at least five digits
(maximal run); the second alternative is the zero-letter case. -/
def refGroupK (k : Nat) (l : List Char) : Option (List Char) :=
  (takeAlphaK k l).bind fun p =>
    let run := p.2.takeWhile isDigitC
    if run.length ≥ 5 then some (p.1 ++ run) else none

def refGroupAt (l : List Char) : Option (List Char) :=
  refGroupK 3 l <|> refGroupK 2 l <|> refGroupK 1 l <|> refGroupK 0 l

/-- Optional case-insensitive literal with backtracking: try the
continuation after consuming `lit`, then without consuming it. -/
def optLitCI (lit : String) (l : List Char) (k : List Char → Option (List Char)) :
    Option (List Char) :=
  match matchLitCI lit.data l with
  | some r => k r <|> k l
  | none => k l

/-- Optional group `(?:\s*No\.?)?` of the reference label. -/
def optNoGrp (l : List Char) (k : List Char → Option (List Char)) :
    Option (List Char) :=
  (match matchLitCI "no".data (l.dropWhile pyWs) with
   | some r =>
     (match matchLitCI ".".data r with
      | some r2 => k r2 <|> k r
      | none => k r)
   | none => none) <|> k l

/-- Attempt `REF_LABELLED_RE` (or the step-4 window pattern, which
differs only in its punctuation set) at one start position:
`(?:Web\s*Ref(?:erence)?|Ref(?:erence)?(?:\s*No\.?)?)` glue value. -/
def refLabelAt (puncts : List Char) (l : List Char) : Option (List Char) :=
  let tail := fun r => refGroupAt (glueTail puncts r)
  ((matchLitCI "web".data l).bind fun r =>
    (matchLitCI "ref".data (r.dropWhile pyWs)).bind fun r2 =>
      optLitCI "erence" r2 tail) <|>
  ((matchLitCI "ref".data l).bind fun r =>
    optLitCI "erence" r (fun r2 => optNoGrp r2 tail))

def refLabelSearchAux (puncts : List Char) : List Char → Option String
  | [] => none
  | c :: t =>
    match refLabelAt puncts (c :: t) with
    | some g => some (String.mk g)
    | none => refLabelSearchAux puncts t

/-- `REF_LABELLED_RE.search(text)` returning the value group.  The
bracket after the label is `[:#\- ]`. -/
def refLabelledSearch (l : List Char) : Option String :=
  refLabelSearchAux [':', '#', '-', Char.ofNat 0xA0] l

/-- The step-4 window pattern of `extract_ref` (same label patterns,
punctuation bracket `[:#-]`); the code takes the first `finditer`
match. -/
def refWindowSearch (l : List Char) : Option String :=
  refLabelSearchAux [':', '#', '-'] l

/-- `REF_RL_RE = \b(RL\d{3,})\b` search.  A match is `RL` (any case)
preceded by a non-word position, followed by a maximal digit run of at
least three digits ending at a non-word position.  `prevWord` tracks
whether the character before the current position is a word character. -/
def rlSearchAux (prevWord : Bool) : List Char → Option String
  | [] => none
  | c :: t =>
    (if !prevWord && charCI c 'r' then
      match t with
      | d :: t2 =>
        if charCI d 'l' then
          let run := t2.takeWhile isDigitC
          let rest := t2.dropWhile isDigitC
          if run.length ≥ 3 &&
              (match rest.head? with | some e => !isWordC e | none => true)
          then some (String.mk (c :: d :: run)) else none
        else none
      | [] => none
     else none) <|> rlSearchAux (isWordC c) t

def rlSearch (l : List Char) : Option String := rlSearchAux false l

/-- `REF_NUMERIC_RE = \b(\d{5,})\b` via `finditer`: the matches are
exactly the maximal digit runs of length at least five delimited by
non-word characters (or the ends of the string).  `okStart` records
whether the run start sits at a word boundary, `acc` is the reversed
run being read. -/
def numRunsAux : Bool → List Char → List Char → List String
  | okStart, acc, [] =>
    if acc.length ≥ 5 && okStart then [String.mk acc.reverse] else []
  | okStart, acc, c :: t =>
    if isDigitC c then numRunsAux okStart (c :: acc) t
    else
      (if acc.length ≥ 5 && okStart && !isWordC c
       then [String.mk acc.reverse] else []) ++ numRunsAux (!isWordC c) [] t

def refNumericRuns (l : List Char) : List String := numRunsAux true [] l

/-- `REF_NUMERIC_RE.search` (first bounded digit run). -/
def refNumericSearch (l : List Char) : Option String := (refNumericRuns l).head?

/-- `BEDS_LABEL_RE = (Bedrooms?|Beds?)\s*[:\-]?\s*(\d+)` search,
returning group 2 as a number. -/
def bedsLabelTail (l : List Char) : Option (List Char) :=
  let r := glueTail [':', '-'] l
  let run := r.takeWhile isDigitC
  if run.isEmpty then none else some run

def optSCI (l : List Char) (k : List Char → Option (List Char)) :
    Option (List Char) :=
  match matchLitCI "s".data l with
  | some r => k r <|> k l
  | none => k l

def bedsLabelAt (l : List Char) : Option (List Char) :=
  ((matchLitCI "bedroom".data l).bind fun r => optSCI r bedsLabelTail) <|>
  ((matchLitCI "bed".data l).bind fun r => optSCI r bedsLabelTail)

def bedsLabelSearchAux : List Char → Option Nat
  | [] => none
  | c :: t =>
    match bedsLabelAt (c :: t) with
    | some run => some (digitsVal run)
    | none => bedsLabelSearchAux t

def bedsLabelSearch (l : List Char) : Option Nat := bedsLabelSearchAux l

/-- Suffix of `BEDS_WORD_RE`: `\s*bed(?:room)?s?` with an optional
trailing `\b` (present in `fetch_stock.py`, absent in the
`fetch_stock1.py` variant). -/
def bedsWordBoundary (bnd : Bool) (l : List Char) : Bool :=
  if bnd then (match l.head? with | some d => !isWordC d | none => true) else true

def bedsWordTail (bnd : Bool) (l : List Char) : Bool :=
  match matchLitCI "bed".data (l.dropWhile pyWs) with
  | none => false
  | some r =>
    ((match matchLitCI "room".data r with
      | some r2 =>
        (match matchLitCI "s".data r2 with
         | some r3 => bedsWordBoundary bnd r3
         | none => false) || bedsWordBoundary bnd r2
      | none => false) ||
     (match matchLitCI "s".data r with
      | some r2 => bedsWordBoundary bnd r2
      | none => false) || bedsWordBoundary bnd r)

/-- `(\d+)\s*bed(?:room)?s?` search (group 1).  All start positions
inside one digit run share the same continuation, so runs are tested
wholesale. -/
def bedsWordSearchAux (bnd : Bool) : List Char → Option Nat
  | [] => none
  | c :: t =>
    if isDigitC c then
      let run := (c :: t).takeWhile isDigitC
      if bedsWordTail bnd ((c :: t).dropWhile isDigitC)
      then some (digitsVal run)
      else bedsWordSearchAux bnd t
    else bedsWordSearchAux bnd t

/-- `BEDS_WORD_RE.search` of `fetch_stock.py` (with trailing `\b`). -/
def bedsWordSearch (l : List Char) : Option Nat := bedsWordSearchAux true l

/-- The beds regex of `fetch_stock1.py` (no trailing `\b`). -/
def bedsWordSearch1 (l : List Char) : Option Nat := bedsWordSearchAux false l

/-- `last_numeric_segment_from_url`: first `/(\d{5,})(?:/|$)` match. -/
def lastNumericSegAux : List Char → Option String
  | [] => none
  | c :: t =>
    (if c = '/' then
      let run := t.takeWhile isDigitC
      let rest := t.dropWhile isDigitC
      if run.length ≥ 5 &&
          (match rest.head? with | some e => e = '/' | none => true)
      then some (String.mk run) else none
     else none) <|> lastNumericSegAux t

def last_numeric_segment_from_url (url : String) : Option String :=
  lastNumericSegAux url.data

/-- `AGENT_NAME_RE = \bblessing\b.*\bnsibande\b` (case-insensitive,
`.` does not cross a newline).  Scan for a word-bounded `nsibande`
before the next newline. -/
def nsibandeScan (prevWord : Bool) : List Char → Bool
  | [] => false
  | c :: t =>
    if c = '\n' then false
    else
      ((!prevWord) &&
        (match matchLitCI "nsibande".data (c :: t) with
         | some r => (match r.head? with | some e => !isWordC e | none => true)
         | none => false)) ||
      nsibandeScan (isWordC c) t

def blessingScan (prevWord : Bool) : List Char → Bool
  | [] => false
  | c :: t =>
    ((!prevWord) &&
      (match matchLitCI "blessing".data (c :: t) with
       | some r =>
         (match r.head? with | some e => !isWordC e | none => true) &&
         nsibandeScan true r
       | none => false)) ||
    blessingScan (isWordC c) t

/-- `bool(AGENT_NAME_RE.search(s))`. -/
def agentNameSearch (s : String) : Bool := blessingScan false s.data

/-- The `WebRef` pattern of `fetch_stock1.py`:
`\bWeb\s*Ref[:\s]*([A-Z]{1,3}\d{3,}|\d{5,})\b` (case-insensitive). -/
def webRefGroupK (minLetters k minDigits : Nat) (l : List Char) :
    Option (List Char) :=
  (takeAlphaK k l).bind fun p =>
    if p.1.length < minLetters then none
    else
      let run := p.2.takeWhile isDigitC
      let rest := p.2.dropWhile isDigitC
      if run.length ≥ minDigits &&
          (match rest.head? with | some e => !isWordC e | none => true)
      then some (p.1 ++ run) else none

def webRefGroup (l : List Char) : Option (List Char) :=
  webRefGroupK 1 3 3 l <|> webRefGroupK 1 2 3 l <|> webRefGroupK 1 1 3 l <|>
  webRefGroupK 0 0 5 l

def webRefSearchAux (prevWord : Bool) : List Char → Option String
  | [] => none
  | c :: t =>
    (if !prevWord then
      (matchLitCI "web".data (c :: t)).bind fun r =>
        (matchLitCI "ref".data (r.dropWhile pyWs)).bind fun r2 =>
          (webRefGroup (r2.dropWhile (fun x => pyWs x || x = ':'))).map String.mk
     else none) <|> webRefSearchAux (isWordC c) t

def webRefSearch (l : List Char) : Option String := webRefSearchAux false l

/-- A money group at exactly this position (`R\s*[\d\s,.'’]+`,
used by the `Price:` labelled pattern of `fetch_stock1.py`). -/
def moneyAt (l : List Char) : Option String :=
  match l with
  | c :: t =>
    if charCI c 'r' && (match t.head? with | some d => moneyChar d | none => false)
    then some (String.mk (c :: t.takeWhile moneyChar)) else none
  | [] => none

/-- `Price:\s*(R\s*[\d\s,.'’]+)` search of `fetch_stock1.py`. -/
def priceLabelSearchAux : List Char → Option String
  | [] => none
  | c :: t =>
    ((matchLitCI "price:".data (c :: t)).bind fun r =>
      moneyAt (r.dropWhile pyWs)) <|> priceLabelSearchAux t

def priceLabelSearch (l : List Char) : Option String := priceLabelSearchAux l

/-! ### URL path parsing -/

/-- `re.sub(r"^https?://[^/]+", "", url)`: drop the scheme and a
non-empty host.  When the pattern does not match the URL is returned
unchanged. -/
def stripSchemeHost (url : String) : String :=
  if pyStartsWith url "https://" then
    let rest := url.data.drop 8
    let host := rest.takeWhile (fun c => c ≠ '/')
    if host.isEmpty then url else String.mk (rest.drop host.length)
  else if pyStartsWith url "http://" then
    let rest := url.data.drop 7
    let host := rest.takeWhile (fun c => c ≠ '/')
    if host.isEmpty then url else String.mk (rest.drop host.length)
  else url

/-- Python `str.strip("/")`. -/
def stripSlashes (l : List Char) : List Char :=
  ((l.dropWhile (· = '/')).reverse.dropWhile (· = '/')).reverse

/-- The maximal runs of non-slash characters, in order (`cur` is the
reversed run being read). -/
def slashRunsAux (cur : List Char) : List Char → List String
  | [] => if cur.isEmpty then [] else [String.mk cur.reverse]
  | c :: t =>
    if c = '/' then
      if cur.isEmpty then slashRunsAux [] t
      else String.mk cur.reverse :: slashRunsAux [] t
    else slashRunsAux (c :: cur) t

/-- `re.split(r"/+", s)`: the non-slash runs, plus an empty first piece
when the string starts with a slash, an empty last piece when it ends
with one, and the single empty piece for the empty string. -/
def pySplitSlashRuns (l : List Char) : List String :=
  match l with
  | [] => [""]
  | c :: _ =>
    (if c = '/' then [""] else []) ++ slashRunsAux [] l ++
    (if l.getLast? = some '/' then [""] else [])

/-- The path segments both URL parsers work on: strip scheme and host,
strip surrounding slashes, split on slash runs. -/
def urlPathParts (url : String) : List String :=
  pySplitSlashRuns (stripSlashes (stripSchemeHost url).data)

/-- Python `list.index` guarded by membership: `some i` with `i` the
first index of `x`, or `none` when `x` is absent. -/
def pyIndex (x : String) : List String → Option Nat
  | [] => none
  | y :: t => if y = x then some 0 else (pyIndex x t).map (· + 1)

/-- Index of the transaction segment: `for-sale` when present, else
`to-let`, else none (the branch order of both scripts). -/
def saleIndex (parts : List String) : Option Nat :=
  match pyIndex "for-sale" parts with
  | some i => some i
  | none => pyIndex "to-let" parts

/-- Title-cased, space-joined form of a slug. -/
def slugToArea (slug : String) : String := pyTitle (dashToSpace slug)

/-- `parse_location_from_url` of `fetch_stock.py`: the segment two
positions after the transaction segment, transformed; `None` when the
shape does not fit. -/
def parse_location_from_url (url : String) : Option String :=
  match saleIndex (urlPathParts url) with
  | none => none
  | some i =>
    if (urlPathParts url).length > i + 2 then
      some (slugToArea ((urlPathParts url).getD (i + 2) ""))
    else none

/-- `property_type_from_url`: the segment three positions after the
transaction segment, lower-cased. -/
def property_type_from_url (url : String) : Option String :=
  match saleIndex (urlPathParts url) with
  | none => none
  | some i =>
    if (urlPathParts url).length > i + 3 then
      some (pyLower ((urlPathParts url).getD (i + 3) ""))
    else none

/-- `area_from_url` of `fetch_stock1.py`: like
`parse_location_from_url`, but falling back to the segment one after
the transaction segment, and dropping an empty slug. -/
def area_from_url (url : String) : Option String :=
  match saleIndex (urlPathParts url) with
  | none => none
  | some i =>
    match (if (urlPathParts url).length > i + 2 then
             some ((urlPathParts url).getD (i + 2) "")
           else if (urlPathParts url).length > i + 1 then
             some ((urlPathParts url).getD (i + 1) "")
           else none) with
    | some s => if s = "" then none else some (slugToArea s)
    | none => none

/-! ### JSON-LD values

Parsed `application/ld+json` blocks (`iter_jsonld`), modelled as a
tagged tree.  Numbers are modelled as integers: the scripts only
compare them with `0` and truncate them with `int()`, and no claim
depends on fractional values.  Python `bool` is a subtype of `int`,
which matters in `extract_beds`, so it is kept as a separate tag. -/

inductive JVal where
  | jnull : JVal
  | jbool : Bool → JVal
  | jnum : Int → JVal
  | jstr : String → JVal
  | jarr : List JVal → JVal
  | jobj : List (String × JVal) → JVal

/-- Python truthiness of a JSON value (used by `or` chains). -/
def jTruthy : JVal → Bool
  | .jnull => false
  | .jbool b => b
  | .jnum n => n ≠ 0
  | .jstr s => s ≠ ""
  | .jarr l => !l.isEmpty
  | .jobj l => !l.isEmpty

/-- `node.get(key)`: first binding of `key` in the mapping. -/
def jGet (fields : List (String × JVal)) (key : String) : Option JVal :=
  match fields.find? (fun p => p.1 = key) with
  | some p => some p.2
  | none => none

mutual

/-- `flatten_json`: depth-first sequence of every mapping node of the
tree (a mapping yields itself, then the flattening of its values; a
sequence yields the flattening of its elements). -/
def flattenJson : JVal → List (List (String × JVal))
  | .jobj fields => fields :: flattenFields fields
  | .jarr xs => flattenList xs
  | _ => []

def flattenList : List JVal → List (List (String × JVal))
  | [] => []
  | v :: vs => flattenJson v ++ flattenList vs

def flattenFields : List (String × JVal) → List (List (String × JVal))
  | [] => []
  | p :: ps => flattenJson p.2 ++ flattenFields ps

end

/-- The first `some` produced by a list (a `for` loop with early
`return`). -/
def listFirstSome : List (Option α) → Option α
  | [] => none
  | o :: t => match o with | some v => some v | none => listFirstSome t

/-! ### The document model

A detail page, as far as `fetch_stock.py` inspects it: the `href`
attributes of its anchors (document order, anchors without `href` are
not listed since every query filters on `href`), the parsed JSON-LD
blocks (malformed blocks are skipped at parse time and not listed),
the `content`/text results of the fixed CSS and metadata queries the
extractors issue (`none` = no matching element; `some` holds the raw
text, possibly empty), the document title element, and the visible
text `soup.get_text(" ", strip=True)`. -/

structure Soup where
  anchors : List String
  jsonld : List JVal
  metaOgUrl : Option String
  metaItempropPrice : Option String
  priceSel1 : Option String
  priceSel2 : Option String
  priceSel3 : Option String
  refSel1 : Option String
  refSel2 : Option String
  refSel3 : Option String
  bedSel1 : Option String
  bedSel2 : Option String
  bedSel3 : Option String
  bedSel4 : Option String
  titleSels : List (Option String)
  docTitle : Option String
  fullText : String

/-- `get_meta_content(soup, "og:url")`: the `content` attribute when
the element exists and the attribute is truthy. -/
def getMetaOgUrl (s : Soup) : Option String :=
  match s.metaOgUrl with
  | some c => if c = "" then none else some c
  | none => none

def AGENT_URL_SNIPPET1 : String := "/agents/blessing-nsibande/75570/"
def AGENT_URL_SNIPPET2 : String := "/results/agent/75570/"

/-- `any_url_points_to_agent` (on a string value). -/
def any_url_points_to_agent (u : String) : Bool :=
  let ul := pyLower u
  strContains ul AGENT_URL_SNIPPET1 || strContains ul AGENT_URL_SNIPPET2

/-- The per-node JSON-LD ownership signals of `verify_agent_ownership`:
identifier keys pointing at the agent, then name-ish keys matching the
agent name pattern. -/
def nodeAgentSignal (node : List (String × JVal)) : Bool :=
  (["url", "@id", "sameAs"].any fun key =>
    match jGet node key with
    | some (.jstr v) => any_url_points_to_agent v
    | some (.jarr xs) =>
      xs.any fun x =>
        match x with
        | .jstr u => any_url_points_to_agent u
        | _ => false
    | _ => false) ||
  (["name", "agent", "seller", "brand", "author"].any fun key =>
    match jGet node key with
    | some (.jstr v) => agentNameSearch v
    | some (.jobj fields) =>
      (match jGet fields "name" with
       | some (.jstr n) => agentNameSearch n
       | _ => false) ||
      (match jGet fields "url" with
       | some (.jstr u) => any_url_points_to_agent u
       | _ => false)
    | _ => false)

/-- `verify_agent_ownership`: anchor hrefs, then JSON-LD signals, then
canonical URL and free-text fallbacks; any single signal suffices. -/
def verify_agent_ownership (s : Soup) (full_text : String) : Bool :=
  (s.anchors.any fun h =>
    let hl := pyLower h
    strContains hl AGENT_URL_SNIPPET1 || strContains hl AGENT_URL_SNIPPET2) ||
  (s.jsonld.any fun data => (flattenJson data).any nodeAgentSignal) ||
  (let canonical := pyLower ((getMetaOgUrl s).getD "")
   any_url_points_to_agent canonical) ||
  (let lt := pyLower full_text
   (strContains lt AGENT_URL_SNIPPET1 || strContains lt AGENT_URL_SNIPPET2) ||
   (agentNameSearch full_text && strContains lt "/results/residential/"))

/-- One CSS branch of `extract_price`: a present node whose text
normalizes to a non-zero number. -/
def priceFromSel (o : Option String) : Option Nat :=
  match o with
  | some t =>
    (match to_int_money t with
     | some p => if p ≠ 0 then some p else none
     | none => none)
  | none => none

/-- Final branch of `extract_price`: the first `MONEY_RE` match,
normalized and returned directly (no zero check here). -/
def extractPriceRegex (text : String) : Option Nat :=
  match moneySearch text.data with
  | some g => to_int_money g
  | none => none

/-- Metadata branch of `extract_price`: a present element with a truthy
`content` whose normalization is non-zero. -/
def priceFromMeta (o : Option String) : Option Nat :=
  match o with
  | some c =>
    if c ≠ "" then
      match to_int_money c with
      | some p => if p ≠ 0 then some p else none
      | none => none
    else none
  | none => none

/-- `extract_price`: metadata attribute, CSS price blocks, then the
money regex over the visible text. -/
def extract_price (s : Soup) (text : String) : Option Nat :=
  priceFromMeta s.metaItempropPrice <|>
  priceFromSel s.priceSel1 <|> priceFromSel s.priceSel2 <|>
  priceFromSel s.priceSel3 <|> extractPriceRegex text

/-- One container branch of `extract_ref`: normalize the container
text and try the labelled, RL and bare numeric patterns on it. -/
def refFromContainer (o : Option String) : Option String :=
  match o with
  | some raw =>
    let t := norm_space raw
    (match refLabelledSearch t.data <|> rlSearch t.data <|> refNumericSearch t.data with
     | some g => some (pyUpper g)
     | none => none)
  | none => none

/-- Step 5 of `extract_ref`: the first bounded digit run that is not a
substring of any detected money amount. -/
def firstNumericNotMoney (l : List Char) : Option String :=
  let monies := moneyFindAll l
  (refNumericRuns l).find? fun seq => !(monies.any fun mon => strContains mon seq)

/-- `extract_ref`: labelled pattern, `ref` containers, RL code, label
windows, bare numerics away from money, then the URL id. -/
def extract_ref (s : Soup) (text : String) (url : String) : Option String :=
  match refLabelledSearch text.data with
  | some g => some (pyUpper g)
  | none =>
    match refFromContainer s.refSel1 <|> refFromContainer s.refSel2 <|>
        refFromContainer s.refSel3 with
    | some r => some r
    | none =>
      match rlSearch text.data with
      | some g => some (pyUpper g)
      | none =>
        match refWindowSearch text.data with
        | some g => some (pyUpper g)
        | none =>
          match firstNumericNotMoney text.data with
          | some seq => some seq
          | none => last_numeric_segment_from_url url

/-- Property types that do not require bedrooms (`TYPES_NO_BEDS`). -/
def TYPES_NO_BEDS : List String :=
  ["vacant-land", "land", "plot", "farm", "smallholding",
   "commercial", "industrial", "office", "retail", "warehouse",
   "development", "site", "stand"]

/-- `TYPES_REQUIRE_BEDS` of the source (defined there but never read by
the code). -/
def TYPES_REQUIRE_BEDS : List String :=
  ["house", "apartment", "flat", "townhouse", "cluster", "duplex",
   "simplex", "loft", "cottage", "villa", "maisonette", "penthouse"]

/-- One key check of the JSON-LD bedroom lookup.  A numeric value is
returned when non-negative; a Python `bool` is an `int` (`True` = 1);
a string is parsed when it holds a digit. -/
def keyBeds (node : List (String × JVal)) (key : String) : Option Int :=
  match jGet node key with
  | some (.jnum v) => if 0 ≤ v then some v else none
  | some (.jbool b) => some (if b then 1 else 0)
  | some (.jstr sv) =>
    if sv.data.any isDigitC then (to_int sv).map Int.ofNat else none
  | _ => none

def nodeBeds (node : List (String × JVal)) : Option Int :=
  keyBeds node "numberOfBedrooms" <|> keyBeds node "numberOfRooms"

/-- Stage 1 of `extract_beds`: first JSON-LD bedroom/room count. -/
def jsonldBeds (s : Soup) : Option Int :=
  listFirstSome ((s.jsonld.flatMap flattenJson).map nodeBeds)

/-- Stage 3 of `extract_beds`: bed icon/class blocks. -/
def bedSelVal (o : Option String) : Option Nat := o.bind to_int

def bedsFromSelectors (s : Soup) : Option Nat :=
  bedSelVal s.bedSel1 <|> bedSelVal s.bedSel2 <|> bedSelVal s.bedSel3 <|>
  bedSelVal s.bedSel4

/-- `extract_beds`: JSON-LD, labelled row, icon blocks, title phrase;
failing all of those, `0` for a type without bedrooms, absent
otherwise. -/
def extract_beds (s : Soup) (text : String) (ptype : String) : Option Int :=
  jsonldBeds s <|> (bedsLabelSearch text.data).map Int.ofNat <|>
  (bedsFromSelectors s).map Int.ofNat <|>
  (bedsWordSearch text.data).map Int.ofNat <|>
  (if ptype ∈ TYPES_NO_BEDS then some 0 else none)

/-- The `TITLE_SELECTORS` loop: first selector whose normalized text is
non-empty. -/
def firstTitleCand : List (Option String) → Option String
  | [] => none
  | o :: rest =>
    match o with
    | some raw =>
      if norm_space raw ≠ "" then some (norm_space raw)
      else firstTitleCand rest
    | none => firstTitleCand rest

/-- Title resolution of the validator: selector cascade, then the
document title element, each normalized; empty results are falsy. -/
def resolveTitle (s : Soup) : Option String :=
  match firstTitleCand s.titleSels with
  | some t => some t
  | none =>
    match s.docTitle with
    | some d => if norm_space d = "" then none else some (norm_space d)
    | none => none

/-- A complete Listing Record (output dictionary of the validator). -/
structure Item where
  ref : String
  title : String
  url : String
  price : Nat
  beds : Int
  area : String
  deriving DecidableEq

/-- `extract_complete_item_from_detail`: ownership, area, title, price,
beds, ref, in this order; the first failing check rejects the page
with its reason (the `skip_log` entry of the source). -/
def extract_complete_item_from_detail (s : Soup) (url : String) :
    Except String Item :=
  if !verify_agent_ownership s s.fullText then
    .error "not_owned_by_agent_75570"
  else
    match parse_location_from_url url with
    | none => .error "missing_area"
    | some area =>
      if area = "" then .error "missing_area"
      else
        match resolveTitle s with
        | none => .error "missing_title"
        | some title =>
          match extract_price s s.fullText with
          | none => .error "missing_price"
          | some price =>
            match extract_beds s s.fullText
                (pyLower ((property_type_from_url url).getD "")) with
            | none => .error "missing_beds_required_for_residential"
            | some beds =>
              match extract_ref s s.fullText url with
              | none => .error "missing_ref"
              | some ref =>
                if ref = "" then .error "missing_ref"
                else .ok ⟨ref, title, url, price, beds, area⟩

/-- Per-candidate processing of `main`: a failed fetch is recorded as
`detail_fetch_failed`, a fetched page goes to the validator. -/
def processCandidate (page : Option Soup) (url : String) : Except String Item :=
  match page with
  | none => .error "detail_fetch_failed"
  | some s => extract_complete_item_from_detail s url

/-! ### URL collection, deduplication and sorting -/

/-- First-occurrence deduplication by a key, with the `seen` set of the
source loops. -/
def dedupFirstAux (key : α → β) [DecidableEq β] (seen : List β) :
    List α → List α
  | [] => []
  | x :: t =>
    if key x ∈ seen then dedupFirstAux key seen t
    else x :: dedupFirstAux key (key x :: seen) t

def dedupFirstBy (key : α → β) [DecidableEq β] (l : List α) : List α :=
  dedupFirstAux key [] l

/-- `parse_results_for_detail_urls`: residential anchors, resolved and
filtered, first occurrences kept. -/
def parse_results_for_detail_urls (s : Soup) : List String :=
  let urls :=
    (((s.anchors.filter fun h => strContains h "/results/residential/").filter
        fun h => h ≠ "").map make_abs).filter
      fun u => strContains u "/results/residential/"
  dedupFirstBy (fun u => u) urls

/-- `url = node.get("url") or node.get("@id")` of the JSON-LD fallback
in `parse_profile_for_detail_urls`. -/
def nodeUrlVal (node : List (String × JVal)) : Option JVal :=
  match jGet node "url" with
  | some v => if jTruthy v then some v else jGet node "@id"
  | none => jGet node "@id"

/-- JSON-LD fallback of `parse_profile_for_detail_urls`: a node whose
`url` (or, when that is falsy, `@id`) is a residential listing URL. -/
def nodeResUrl (node : List (String × JVal)) : Option String :=
  match nodeUrlVal node with
  | some (.jstr u) =>
    if strContains u "/results/residential/" then some (make_abs u) else none
  | _ => none

/-- `parse_profile_for_detail_urls`: residential anchors plus JSON-LD
URLs, first occurrences kept. -/
def parse_profile_for_detail_urls (s : Soup) : List String :=
  let anchorUrls :=
    ((s.anchors.filter fun h => strContains h "/results/residential/").filter
      fun h => h ≠ "").map make_abs
  let jsonldUrls := (s.jsonld.flatMap flattenJson).filterMap nodeResUrl
  dedupFirstBy (fun u => u) (anchorUrls ++ jsonldUrls)

/-- Append the URLs not yet collected (inner loop of
`collect_from_results`). -/
def appendNew (collected : List String) : List String → List String
  | [] => collected
  | u :: us =>
    if u ∈ collected then appendNew collected us
    else appendNew (collected ++ [u]) us

/-- `collect_from_results` over the successfully fetched result pages
(pagination and fetching are I/O; the page cap bounds the length of
`pages`). -/
def collectResultsAux (collected : List String) : List Soup → List String
  | [] => collected
  | p :: ps =>
    collectResultsAux (appendNew collected (parse_results_for_detail_urls p)) ps

def collect_from_results (pages : List Soup) : List String :=
  collectResultsAux [] pages

/-- `collect_from_profile`: empty on fetch failure. -/
def collect_from_profile (page : Option Soup) : List String :=
  match page with
  | none => []
  | some s => parse_profile_for_detail_urls s

/-- The merged candidate URL list of `main` (profile first, then
results, first occurrences kept). -/
def mergedCandidates (profilePage : Option Soup) (resultPages : List Soup) :
    List String :=
  dedupFirstBy (fun u => u)
    (collect_from_profile profilePage ++ collect_from_results resultPages)

/-- The sort relation of `dedup.sort(key=lambda x: ((x.get("price") or 0),
x.get("title") or ""), reverse=True)`: `a` may precede `b` exactly when
the key of `b` is lexicographically at most the key of `a`.  (`or 0` /
`or ""` are identities on a `Nat` price and a `String` title.) -/
def itemGE (a b : Item) : Prop :=
  b.price < a.price ∨ (b.price = a.price ∧ b.title ≤ a.title)

instance : DecidableRel itemGE := fun a b => by
  unfold itemGE; infer_instance

/-- Python `list.sort` is stable; a stable insertion sort under the
same precedence relation produces the identical sequence. -/
def sortItems (l : List Item) : List Item := List.insertionSort itemGE l

/-- The final de-duplicate-then-sort step of `main` in
`fetch_stock.py`. -/
def catalogStep (items : List Item) : List Item :=
  sortItems (dedupFirstBy Item.url items)

/-! ### `fetch_stock1.py` -/

/-- An anchor as `extract_from_card` reads it: `href`, the `title`
attribute, and its text. -/
structure CAnchor where
  href : String
  titleAttr : Option String
  text : String
  deriving DecidableEq

/-- A listing card: the first anchor carrying an `href`, and the card
text. -/
structure Card where
  firstAnchor : Option CAnchor
  blockText : String
  deriving DecidableEq

/-- A record of `fetch_stock1.py`: only `url` and `title` are
guaranteed, the other fields may be absent. -/
structure Item1 where
  ref : Option String
  title : String
  url : String
  price : Option Nat
  beds : Option Nat
  area : Option String
  deriving DecidableEq

/-- `to_number` of `fetch_stock1.py` (an identical copy of
`to_int_money`). -/
def to_number (txt : String) : Option Nat := to_int_money txt

/-- `extract_from_card`: url from the residential anchor, title from
the anchor attribute or text, price/beds/ref by regex over the card
text, area from the URL; emitted whenever url and title are truthy,
with the remaining fields possibly absent. -/
def extract_from_card (card : Card) : Option Item1 :=
  let a := card.firstAnchor
  let url : Option String :=
    match a with
    | some an =>
      if strContains an.href "/results/residential/" then
        some (if pyStartsWith an.href "/"
              then "https://www.huizemark.com" ++ an.href else an.href)
      else none
    | none => none
  let fallbackText : Option String :=
    match a with
    | some an => if an.text ≠ "" then some an.text else none
    | none => none
  let title : Option String :=
    match a with
    | some an =>
      match an.titleAttr with
      | some tA =>
        if tA ≠ "" then
          (let t := String.mk (stripWs tA.data)
           if t = "" then fallbackText else some t)
        else fallbackText
      | none => fallbackText
    | none => fallbackText
  let price : Option Nat :=
    match moneySearch card.blockText.data with
    | some g => to_number g
    | none =>
      match priceLabelSearch card.blockText.data with
      | some g => to_number g
      | none => none
  let beds : Option Nat := bedsWordSearch1 card.blockText.data
  let ref : Option String :=
    match rlSearch card.blockText.data with
    | some g => some (pyUpper g)
    | none =>
      match webRefSearch card.blockText.data with
      | some g => some (pyUpper g)
      | none => none
  match url, title with
  | some u, some t =>
    if u = "" ∨ t = "" then none
    else some ⟨ref, t, u, price, beds, area_from_url u⟩
  | _, _ => none

/-- An index page as `extract_listings_from_html` reads it: the card
containers matched by the candidate selectors, and the residential
anchors together with their grandparent context card. -/
structure Soup1 where
  candidates : List Card
  anchorsRes : List (CAnchor × Card)

/-- Last-resort record of the anchor fallback. -/
def fallbackItem (p : CAnchor × Card) : Item1 :=
  match extract_from_card p.2 with
  | some item => item
  | none =>
    let url :=
      if pyStartsWith p.1.href "/" then "https://www.huizemark.com" ++ p.1.href
      else p.1.href
    let title :=
      match p.1.titleAttr with
      | some tA =>
        if tA ≠ "" then tA
        else if p.1.text ≠ "" then p.1.text else "Huizemark Property"
      | none => if p.1.text ≠ "" then p.1.text else "Huizemark Property"
    ⟨none, title, url, none, none, area_from_url url⟩

/-- The per-item URL dedup loop of `fetch_stock1.py` (truthy URL,
first occurrence). -/
def dedupItems1 (seen : List String) : List Item1 → List Item1
  | [] => []
  | it :: t =>
    if it.url ≠ "" ∧ it.url ∉ seen then
      it :: dedupItems1 (it.url :: seen) t
    else dedupItems1 seen t

/-- `extract_listings_from_html`: card candidates first; when they
produce nothing, the anchor fallback; then URL dedup. -/
def extract_listings_from_html (s : Soup1) : List Item1 :=
  let cards :=
    if !s.candidates.isEmpty then s.candidates.filterMap extract_from_card
    else []
  let cards :=
    if cards.isEmpty then
      (s.anchorsRes.filter fun p =>
        strContains p.1.href "/results/residential/").map fallbackItem
    else cards
  dedupItems1 [] cards

/-- Sort relation of `fetch_stock1.py`:
`dedup.sort(key=lambda x: (x.get("price") or 0), reverse=True)` —
price only, no title component. -/
def itemGE1 (a b : Item1) : Prop := b.price.getD 0 ≤ a.price.getD 0

instance : DecidableRel itemGE1 := fun a b => by
  unfold itemGE1; infer_instance

def sortItems1 (l : List Item1) : List Item1 := List.insertionSort itemGE1 l

/-- End of `main` in `fetch_stock1.py`: accumulate page items, dedup by
URL, sort by price descending. -/
def stock1Catalog (pages : List Soup1) : List Item1 :=
  sortItems1 (dedupItems1 [] (pages.flatMap extract_listings_from_html))

/-! ### Specification-side predicates -/

/-- No two adjacent whitespace characters. -/
def noAdjWs : List Char → Bool
  | [] => true
  | [_] => true
  | a :: b :: t => !(pyWs a && pyWs b) && noAdjWs (b :: t)

/-- The normalized form `norm_space` is claimed to produce: no leading
or trailing whitespace and no two adjacent whitespace characters. -/
def isNormalizedWs (s : String) : Bool :=
  (match s.data.head? with | some c => !pyWs c | none => true) &&
  (match s.data.getLast? with | some c => !pyWs c | none => true) &&
  noAdjWs s.data

/-- Lexicographic comparison of code points (the Python string
order on the ASCII strings involved). -/
def listLeB : List Char → List Char → Bool
  | [], _ => true
  | _ :: _, [] => false
  | a :: as, b :: bs =>
    if a.val < b.val then true
    else if b.val < a.val then false
    else listLeB as bs

def strLeB (a b : String) : Bool := listLeB a.data b.data

/-- Sortedness by price descending with a descending title tie-break
(the order `fetch_stock.py` produces), on `fetch_stock1.py` records. -/
def sortedPriceTitleDesc1 : List Item1 → Bool
  | [] => true
  | [_] => true
  | a :: b :: t =>
    (decide (b.price.getD 0 < a.price.getD 0) ||
      (a.price.getD 0 == b.price.getD 0 && strLeB b.title a.title)) &&
    sortedPriceTitleDesc1 (b :: t)

/-- Sortedness by price descending with an ascending title tie-break
(the other reading of a title tie-break). -/
def sortedPriceTitleAsc1 : List Item1 → Bool
  | [] => true
  | [_] => true
  | a :: b :: t =>
    (decide (b.price.getD 0 < a.price.getD 0) ||
      (a.price.getD 0 == b.price.getD 0 && strLeB a.title b.title)) &&
    sortedPriceTitleAsc1 (b :: t)

/-- The reason strings the validator and the main loop actually emit. -/
def codeReasons : List String :=
  ["not_owned_by_agent_75570", "missing_area", "missing_title",
   "missing_price", "missing_beds_required_for_residential", "missing_ref",
   "detail_fetch_failed"]

/-- The reason strings listed by the specification (which writes
`not_owned_by_agent` for the ownership rejection). -/
def claimedReasons : List String :=
  ["not_owned_by_agent", "missing_area", "missing_title",
   "missing_price", "missing_beds_required_for_residential", "missing_ref",
   "detail_fetch_failed"]

/-- Modelled from the spec, §4.4: the reason of the first failing check
in the fixed order ownership, area, title, price, beds, ref (with the
reason strings the code emits); `none` when every check passes.  Used
to compare the validator against the specified check order. -/
def specFirstFailure (s : Soup) (url : String) : Option String :=
  if !verify_agent_ownership s s.fullText then
    some "not_owned_by_agent_75570"
  else if (match parse_location_from_url url with
           | none => true
           | some a => a = "") then some "missing_area"
  else if (resolveTitle s).isNone then some "missing_title"
  else if (extract_price s s.fullText).isNone then some "missing_price"
  else if (extract_beds s s.fullText
      (pyLower ((property_type_from_url url).getD ""))).isNone then
    some "missing_beds_required_for_residential"
  else if (match extract_ref s s.fullText url with
           | none => true
           | some r => r = "") then some "missing_ref"
  else none

/-! ### Concrete pages and records used by witnesses and
counterexamples -/

def urlA : String :=
  "https://www.huizemark.com/results/residential/for-sale/johannesburg/sandton-central/house/123456/"

/-- A detail page that passes every check. -/
def soupA : Soup :=
  ⟨["/agents/blessing-nsibande/75570/"], [], none, none,
   none, none, none, none, none, none, none, none, none, none,
   [some "Lovely  Family Home"], none,
   "Lovely Family Home Bedrooms: 3 R 1 250 000 Web Ref: AB12345"⟩

def itemA : Item :=
  ⟨"AB12345", "Lovely Family Home", urlA, 1250000, 3, "Sandton Central"⟩

/-- A rental URL (transaction segment `to-let`). -/
def urlT : String :=
  "https://www.huizemark.com/results/residential/to-let/johannesburg/rosebank/apartment/777777/"

def urlB : String :=
  "https://www.huizemark.com/results/residential/for-sale/x/y/house/99999/"

/-- A detail page with no ownership signal at all. -/
def soupB : Soup :=
  ⟨[], [], none, none,
   none, none, none, none, none, none, none, none, none, none,
   [], none, "A house somewhere"⟩

def urlC : String :=
  "https://www.huizemark.com/results/residential/for-sale/johannesburg/bryanston/house/234567/"

/-- A detail page whose only money evidence is `R 0`. -/
def soupC : Soup :=
  ⟨["/agents/blessing-nsibande/75570/"], [], none, none,
   none, none, none, none, none, none, none, none, none, none,
   [some "Nice House"], none,
   "Nice House Bedrooms: 2 Web Ref: CD23456 R 0"⟩

def itemC : Item := ⟨"CD23456", "Nice House", urlC, 0, 2, "Bryanston"⟩

def urlDLand : String :=
  "https://www.huizemark.com/results/residential/for-sale/johannesburg/midrand/vacant-land/345678/"

def urlDHouse : String :=
  "https://www.huizemark.com/results/residential/for-sale/johannesburg/midrand/house/345678/"

/-- A detail page with no bedroom signal of any kind. -/
def soupD : Soup :=
  ⟨["/agents/blessing-nsibande/75570/"], [], none, none,
   none, none, none, none, none, none, none, none, none, none,
   [some "Prime Stand"], none,
   "Prime Stand R 500 000 Web Ref: EF34567"⟩

def itemD : Item := ⟨"EF34567", "Prime Stand", urlDLand, 500000, 0, "Midrand"⟩

/-- Text holding both a labelled reference and an unrelated standalone
six-digit number. -/
def textRef : String := "Charming cottage. Web Ref: ab12345. Erf 654321."

/-- A profile page and a results page for the URL-collection pipeline. -/
def soupProf : Soup :=
  ⟨["/results/residential/for-sale/aville/bburb/house/11111/"], [], none, none,
   none, none, none, none, none, none, none, none, none, none,
   [], none, ""⟩

def soupRes : Soup :=
  ⟨["https://www.huizemark.com/results/residential/for-sale/aville/bburb/house/22222/"],
   [], none, none,
   none, none, none, none, none, none, none, none, none, none,
   [], none, ""⟩

/-- A listing card with url and title but no price, beds or reference
evidence. -/
def card1A : Card :=
  ⟨some ⟨"/results/residential/for-sale/johannesburg/sandton/house/123456/",
        some "Lovely Home", "Lovely Home"⟩,
   "Lovely Home"⟩

def soup1A : Soup1 := ⟨[card1A], []⟩

def item1A : Item1 :=
  ⟨none, "Lovely Home",
   "https://www.huizemark.com/results/residential/for-sale/johannesburg/sandton/house/123456/",
   none, none, some "Sandton"⟩

/-- Two equal-price records whose titles differ. -/
def it1 : Item1 := ⟨none, "A", "u1", some 100, none, none⟩

def it2 : Item1 := ⟨none, "B", "u2", some 100, none, none⟩

/-! ## Lemmas about `norm_space` -/

theorem noAdjWs_cons (a : Char) (l : List Char) :
    noAdjWs (a :: l) =
      ((match l.head? with
        | some b => !(pyWs a && pyWs b)
        | none => true) && noAdjWs l) := by
  cases l with
  | nil => simp [noAdjWs]
  | cons b t => simp [noAdjWs]

theorem noAdjWs_tail {a : Char} {l : List Char} (h : noAdjWs (a :: l) = true) :
    noAdjWs l = true := by
  rw [noAdjWs_cons] at h
  exact (Bool.and_eq_true_iff.mp h).2

theorem collapse_head_ws :
    ∀ (l : List Char) (c : Char),
      (collapseWsAux true l).head? = some c → pyWs c = false := by
  intro l
  induction l with
  | nil => intro c h; simp [collapseWsAux] at h
  | cons a t ih =>
    intro c h
    cases ha : pyWs a
    · rw [collapseWsAux, ha] at h
      simp at h
      rw [← h]
      exact ha
    · rw [collapseWsAux, ha] at h
      exact ih c h

theorem collapse_noAdj :
    ∀ (l : List Char) (b : Bool), noAdjWs (collapseWsAux b l) = true := by
  intro l
  induction l with
  | nil => intro b; simp [collapseWsAux, noAdjWs]
  | cons a t ih =>
    intro b
    cases ha : pyWs a
    · simp only [collapseWsAux, ha, Bool.false_eq_true, if_false]
      rw [noAdjWs_cons]
      refine Bool.and_eq_true_iff.mpr ⟨?_, ih false⟩
      cases hh : (collapseWsAux false t).head?
      · rfl
      · simp [ha]
    · cases b
      · simp only [collapseWsAux, ha, if_true, Bool.false_eq_true, if_false]
        rw [noAdjWs_cons]
        refine Bool.and_eq_true_iff.mpr ⟨?_, ih true⟩
        cases hh : (collapseWsAux true t).head?
        · rfl
        · rename_i d
          show (!(pyWs ' ' && pyWs d)) = true
          rw [collapse_head_ws t d hh]
          simp
      · simp only [collapseWsAux, ha, if_true]
        exact ih true

theorem collapse_ws_space :
    ∀ (l : List Char) (b : Bool) (c : Char),
      c ∈ collapseWsAux b l → pyWs c = true → c = ' ' := by
  intro l
  induction l with
  | nil => intro b c h; simp [collapseWsAux] at h
  | cons a t ih =>
    intro b c h hc
    cases ha : pyWs a
    · rw [collapseWsAux, ha] at h
      simp only [Bool.false_eq_true, if_false, List.mem_cons] at h
      rcases h with h | h
      · rw [h] at hc; rw [hc] at ha; cases ha
      · exact ih false c h hc
    · rw [collapseWsAux, ha] at h
      cases b
      · simp only [Bool.false_eq_true, if_true, if_false, List.mem_cons] at h
        rcases h with h | h
        · exact h
        · exact ih true c h hc
      · exact ih true c (by simpa using h) hc

theorem dropWhile_head_not (p : Char → Bool) :
    ∀ (l : List Char) (c : Char),
      (l.dropWhile p).head? = some c → p c = false := by
  intro l
  induction l with
  | nil => intro c h; simp at h
  | cons a t ih =>
    intro c h
    cases ha : p a
    · rw [List.dropWhile_cons, ha] at h
      simp at h
      rw [← h]
      exact ha
    · rw [List.dropWhile_cons, ha] at h
      exact ih c (by simpa using h)

theorem noAdjWs_dropWhile (p : Char → Bool) :
    ∀ (l : List Char), noAdjWs l = true → noAdjWs (l.dropWhile p) = true := by
  intro l
  induction l with
  | nil => intro h; simpa using h
  | cons a t ih =>
    intro h
    cases ha : p a
    · rw [List.dropWhile_cons, ha]
      simpa using h
    · rw [List.dropWhile_cons, ha]
      exact ih (noAdjWs_tail h)

theorem noAdjWs_append_one :
    ∀ (l : List Char) (c : Char), noAdjWs l = true →
      (∀ d, l.getLast? = some d → (pyWs d && pyWs c) = false) →
      noAdjWs (l ++ [c]) = true := by
  intro l
  induction l with
  | nil => intro c _ _; simp [noAdjWs]
  | cons a t ih =>
    intro c h hlast
    rw [List.cons_append, noAdjWs_cons]
    refine Bool.and_eq_true_iff.mpr ⟨?_, ?_⟩
    · cases t with
      | nil =>
        simp only [List.nil_append, List.head?_cons]
        have h2 := hlast a (by simp)
        cases h3 : pyWs a <;> cases h4 : pyWs c <;> simp_all
      | cons b t2 =>
        simp only [List.cons_append, List.head?_cons]
        rw [noAdjWs_cons] at h
        have := (Bool.and_eq_true_iff.mp h).1
        simpa using this
    · cases t with
      | nil => simp [noAdjWs]
      | cons b t2 =>
        exact ih c (noAdjWs_tail h) (by
          intro d hd
          exact hlast d (by simpa using hd))

theorem noAdjWs_reverse :
    ∀ (l : List Char), noAdjWs l = true → noAdjWs l.reverse = true := by
  intro l
  induction l with
  | nil => intro h; simpa using h
  | cons a t ih =>
    intro h
    rw [List.reverse_cons]
    refine noAdjWs_append_one t.reverse a (ih (noAdjWs_tail h)) ?_
    intro d hd
    rw [List.getLast?_reverse] at hd
    cases t with
    | nil => simp at hd
    | cons b t2 =>
      simp only [List.head?_cons] at hd
      have hbd : b = d := by simpa using hd
      subst hbd
      rw [noAdjWs_cons] at h
      have h1 := (Bool.and_eq_true_iff.mp h).1
      simp only [List.head?_cons] at h1
      cases h2 : pyWs a <;> cases h3 : pyWs b <;> simp_all

theorem mem_of_dropWhile (p : Char → Bool) :
    ∀ (l : List Char) (c : Char), c ∈ l.dropWhile p → c ∈ l := by
  intro l
  induction l with
  | nil => intro c h; simp at h
  | cons a t ih =>
    intro c h
    cases ha : p a
    · rw [List.dropWhile_cons, ha] at h
      simpa using h
    · rw [List.dropWhile_cons, ha] at h
      exact List.mem_cons_of_mem a (ih c h)

theorem getLast?_cons_ne {a : Char} {t : List Char} (h : t ≠ []) :
    (a :: t).getLast? = t.getLast? := by
  cases t with
  | nil => cases h rfl
  | cons b t2 => simp [List.getLast?_cons_cons]

theorem dropWhile_getLast (p : Char → Bool) :
    ∀ (l : List Char), l.dropWhile p ≠ [] →
      (l.dropWhile p).getLast? = l.getLast? := by
  intro l
  induction l with
  | nil => intro h; simp at h
  | cons a t ih =>
    intro h
    cases ha : p a
    · simp [List.dropWhile_cons, ha]
    · simp only [List.dropWhile_cons, ha, if_true] at h ⊢
      have ht : t ≠ [] := by
        intro he
        rw [he] at h
        simp at h
      rw [ih h, getLast?_cons_ne ht]

theorem stripWs_mem {l : List Char} {c : Char} (h : c ∈ stripWs l) : c ∈ l := by
  unfold stripWs at h
  rw [List.mem_reverse] at h
  have h2 := mem_of_dropWhile pyWs _ _ h
  rw [List.mem_reverse] at h2
  exact mem_of_dropWhile pyWs _ _ h2

theorem stripWs_head {l : List Char} {c : Char}
    (h : (stripWs l).head? = some c) : pyWs c = false := by
  unfold stripWs at h
  rw [List.head?_reverse] at h
  have hne : (l.dropWhile pyWs).reverse.dropWhile pyWs ≠ [] := by
    intro he
    rw [he] at h
    simp at h
  rw [dropWhile_getLast pyWs _ hne, List.getLast?_reverse] at h
  exact dropWhile_head_not pyWs l c h

theorem stripWs_last {l : List Char} {c : Char}
    (h : (stripWs l).getLast? = some c) : pyWs c = false := by
  unfold stripWs at h
  rw [List.getLast?_reverse] at h
  exact dropWhile_head_not pyWs _ c h

theorem stripWs_noAdj {l : List Char} (h : noAdjWs l = true) :
    noAdjWs (stripWs l) = true := by
  unfold stripWs
  exact noAdjWs_reverse _ (noAdjWs_dropWhile pyWs _ (noAdjWs_reverse _
    (noAdjWs_dropWhile pyWs _ h)))

theorem norm_space_normalized (s : String) :
    isNormalizedWs (norm_space s) = true := by
  have hnadj : noAdjWs (norm_space s).data = true :=
    stripWs_noAdj (collapse_noAdj s.data false)
  unfold isNormalizedWs
  cases hc1 : (norm_space s).data.head? with
  | none =>
    cases hc2 : (norm_space s).data.getLast? with
    | none => simp [hnadj]
    | some c2 =>
      have := stripWs_last (l := collapseWsAux false s.data) hc2
      simp [hnadj, this]
  | some c1 =>
    have h1 := stripWs_head (l := collapseWsAux false s.data) hc1
    cases hc2 : (norm_space s).data.getLast? with
    | none => simp [hnadj, h1]
    | some c2 =>
      have h2 := stripWs_last (l := collapseWsAux false s.data) hc2
      simp [hnadj, h1, h2]

theorem isNormalizedWs_parts (u : String) (h : isNormalizedWs u = true) :
    noAdjWs u.data = true ∧
      (∀ c, u.data.head? = some c → pyWs c = false) ∧
      (∀ c, u.data.getLast? = some c → pyWs c = false) := by
  unfold isNormalizedWs at h
  have h1 := Bool.and_eq_true_iff.mp h
  have h2 := Bool.and_eq_true_iff.mp h1.1
  refine ⟨h1.2, ?_, ?_⟩
  · intro c hc
    have h3 := h2.1
    rw [hc] at h3
    simpa using h3
  · intro c hc
    have h3 := h2.2
    rw [hc] at h3
    simpa using h3

theorem collapse_true_eq_false {l : List Char}
    (h : ∀ d, l.head? = some d → pyWs d = false) :
    collapseWsAux true l = collapseWsAux false l := by
  cases l with
  | nil => rfl
  | cons a t =>
    have := h a (by simp)
    simp [collapseWsAux, this]

theorem collapse_eq_self :
    ∀ (l : List Char), noAdjWs l = true →
      (∀ c ∈ l, pyWs c = true → c = ' ') → collapseWsAux false l = l := by
  intro l
  induction l with
  | nil => intro _ _; rfl
  | cons a t ih =>
    intro h hsp
    cases ha : pyWs a
    · rw [collapseWsAux, ha]
      simp only [Bool.false_eq_true, if_false, List.cons.injEq, true_and]
      exact ih (noAdjWs_tail h) (fun c hc => hsp c (List.mem_cons_of_mem a hc))
    · have ha' : a = ' ' := hsp a (by simp) ha
      rw [collapseWsAux, ha]
      simp only [if_true, Bool.false_eq_true, if_false]
      have hhd : ∀ d, t.head? = some d → pyWs d = false := by
        intro d hd
        rw [noAdjWs_cons] at h
        have h1 := (Bool.and_eq_true_iff.mp h).1
        rw [hd] at h1
        cases hw : pyWs d
        · rfl
        · simp [ha, hw] at h1
      rw [collapse_true_eq_false hhd,
        ih (noAdjWs_tail h) (fun c hc => hsp c (List.mem_cons_of_mem a hc)), ha']

theorem dropWhile_eq_self_of_head (p : Char → Bool) {l : List Char}
    (h : ∀ c, l.head? = some c → p c = false) : l.dropWhile p = l := by
  cases l with
  | nil => rfl
  | cons a t =>
    have := h a (by simp)
    rw [List.dropWhile_cons, this]
    simp

theorem stripWs_eq_self {l : List Char}
    (hh : ∀ c, l.head? = some c → pyWs c = false)
    (hl : ∀ c, l.getLast? = some c → pyWs c = false) : stripWs l = l := by
  unfold stripWs
  rw [dropWhile_eq_self_of_head pyWs hh]
  rw [dropWhile_eq_self_of_head pyWs (by
    intro c hc
    rw [List.head?_reverse] at hc
    exact hl c hc)]
  exact List.reverse_reverse l

theorem norm_space_of_normalized (u : String) (h1 : isNormalizedWs u = true)
    (h2 : ∀ c ∈ u.data, pyWs c = true → c = ' ') : norm_space u = u := by
  obtain ⟨hnadj, hh, hl⟩ := isNormalizedWs_parts u h1
  unfold norm_space
  rw [collapse_eq_self u.data hnadj h2, stripWs_eq_self hh hl]

theorem norm_space_idem (s : String) :
    norm_space (norm_space s) = norm_space s := by
  refine norm_space_of_normalized _ (norm_space_normalized s) ?_
  intro c hc hw
  exact collapse_ws_space s.data false c (stripWs_mem hc) hw

/-! ## Lemmas about deduplication and sorting -/

theorem dedupFirstAux_mem (key : α → β) [DecidableEq β] :
    ∀ (seen : List β) (l : List α) (x : α),
      x ∈ dedupFirstAux key seen l → x ∈ l := by
  intro seen l
  induction l generalizing seen with
  | nil => intro x h; simp [dedupFirstAux] at h
  | cons a t ih =>
    intro x h
    rw [dedupFirstAux] at h
    by_cases hk : key a ∈ seen
    · rw [if_pos hk] at h
      exact List.mem_cons_of_mem a (ih seen x h)
    · rw [if_neg hk] at h
      rcases List.mem_cons.mp h with h | h
      · rw [h]; exact List.mem_cons_self a t
      · exact List.mem_cons_of_mem a (ih _ x h)

theorem dedupFirstAux_not_seen (key : α → β) [DecidableEq β] :
    ∀ (seen : List β) (l : List α) (x : α),
      x ∈ dedupFirstAux key seen l → key x ∉ seen := by
  intro seen l
  induction l generalizing seen with
  | nil => intro x h; simp [dedupFirstAux] at h
  | cons a t ih =>
    intro x h
    rw [dedupFirstAux] at h
    by_cases hk : key a ∈ seen
    · rw [if_pos hk] at h
      exact ih seen x h
    · rw [if_neg hk] at h
      rcases List.mem_cons.mp h with h | h
      · rw [h]; exact hk
      · have := ih _ x h
        intro hc
        exact this (List.mem_cons_of_mem _ hc)

theorem dedupFirstAux_key_nodup (key : α → β) [DecidableEq β] :
    ∀ (seen : List β) (l : List α),
      ((dedupFirstAux key seen l).map key).Nodup := by
  intro seen l
  induction l generalizing seen with
  | nil => simp [dedupFirstAux]
  | cons a t ih =>
    rw [dedupFirstAux]
    by_cases hk : key a ∈ seen
    · rw [if_pos hk]
      exact ih seen
    · rw [if_neg hk]
      rw [List.map_cons, List.nodup_cons]
      refine ⟨?_, ih _⟩
      intro hmem
      rcases List.mem_map.mp hmem with ⟨y, hy, hky⟩
      have := dedupFirstAux_not_seen key _ _ _ hy
      exact this (by rw [hky]; exact List.mem_cons_self _ _)

theorem dedupFirstAux_eq_self (key : α → β) [DecidableEq β] :
    ∀ (seen : List β) (l : List α),
      (∀ x ∈ l, key x ∉ seen) → (l.map key).Nodup →
      dedupFirstAux key seen l = l := by
  intro seen l
  induction l generalizing seen with
  | nil => intro _ _; rfl
  | cons a t ih =>
    intro hseen hnd
    rw [dedupFirstAux, if_neg (hseen a (List.mem_cons_self a t))]
    rw [List.map_cons, List.nodup_cons] at hnd
    congr 1
    refine ih _ ?_ hnd.2
    intro x hx
    intro hc
    rcases List.mem_cons.mp hc with hc | hc
    · exact hnd.1 (by rw [← hc]; exact List.mem_map_of_mem key hx)
    · exact hseen x (List.mem_cons_of_mem a hx) hc

theorem dedupFirstBy_mem (key : α → β) [DecidableEq β] {l : List α} {x : α}
    (h : x ∈ dedupFirstBy key l) : x ∈ l :=
  dedupFirstAux_mem key [] l x h

theorem dedupFirstBy_key_nodup (key : α → β) [DecidableEq β] (l : List α) :
    ((dedupFirstBy key l).map key).Nodup :=
  dedupFirstAux_key_nodup key [] l

theorem dedupFirstBy_eq_self (key : α → β) [DecidableEq β] {l : List α}
    (h : (l.map key).Nodup) : dedupFirstBy key l = l :=
  dedupFirstAux_eq_self key [] l (by intro x _ hc; simp at hc) h

instance : IsTrans Item itemGE := ⟨by
  intro a b c hab hbc
  unfold itemGE at *
  rcases hab with h1 | ⟨h1, h2⟩ <;> rcases hbc with h3 | ⟨h3, h4⟩
  · exact Or.inl (lt_trans h3 h1)
  · exact Or.inl (h3 ▸ h1)
  · exact Or.inl (h1 ▸ h3)
  · exact Or.inr ⟨h3.trans h1, h4.trans h2⟩⟩

instance : IsTotal Item itemGE := ⟨by
  intro a b
  unfold itemGE
  rcases Nat.lt_trichotomy a.price b.price with h | h | h
  · exact Or.inr (Or.inl h)
  · rcases le_total a.title b.title with ht | ht
    · exact Or.inr (Or.inr ⟨h, ht⟩)
    · exact Or.inl (Or.inr ⟨h.symm, ht⟩)
  · exact Or.inl (Or.inl h)⟩

theorem sortItems_sorted (l : List Item) : List.Sorted itemGE (sortItems l) :=
  List.sorted_insertionSort itemGE l

theorem sortItems_perm (l : List Item) : List.Perm (sortItems l) l :=
  List.perm_insertionSort itemGE l

theorem sortItems_of_sorted {l : List Item} (h : List.Sorted itemGE l) :
    sortItems l = l :=
  h.insertionSort_eq

/-! ## Lemmas about URL collection -/

theorem listPrefix_append :
    ∀ (p l m : List Char), listPrefix p l = true →
      listPrefix p (l ++ m) = true := by
  intro p
  induction p with
  | nil => intro l m _; rfl
  | cons a ps ih =>
    intro l m h
    cases l with
    | nil => simp [listPrefix] at h
    | cons b bs =>
      simp only [listPrefix, Bool.and_eq_true, decide_eq_true_eq] at h
      simp only [List.cons_append, listPrefix, Bool.and_eq_true,
        decide_eq_true_eq]
      exact ⟨h.1, ih bs m h.2⟩

theorem containsSub_append_left :
    ∀ (s t pat : List Char), containsSubList pat t = true →
      containsSubList pat (s ++ t) = true := by
  intro s
  induction s with
  | nil => intro t pat h; exact h
  | cons c cs ih =>
    intro t pat h
    rw [List.cons_append, containsSubList, ih t pat h]
    simp

theorem make_abs_http (u : String) : pyStartsWith (make_abs u) "http" = true := by
  unfold make_abs
  cases h1 : pyStartsWith u "http"
  · cases h2 : pyStartsWith u "/" <;>
      · simp only [h1, Bool.false_eq_true, if_false, h2, if_true]
        unfold pyStartsWith
        rw [String.data_append]
        exact listPrefix_append _ _ _ (by rfl)
  · simp only [h1, if_true]

theorem make_abs_contains (u pat : String) (h : strContains u pat = true) :
    strContains (make_abs u) pat = true := by
  unfold make_abs
  cases h1 : pyStartsWith u "http"
  · cases h2 : pyStartsWith u "/" <;>
      · simp only [h1, Bool.false_eq_true, if_false, h2, if_true]
        unfold strContains
        rw [String.data_append]
        exact containsSub_append_left _ _ _ h
  · simpa [h1] using h

theorem appendNew_mem :
    ∀ (us acc : List String) (u : String),
      u ∈ appendNew acc us → u ∈ acc ∨ u ∈ us := by
  intro us
  induction us with
  | nil => intro acc u h; exact Or.inl h
  | cons v vs ih =>
    intro acc u h
    rw [appendNew] at h
    by_cases hv : v ∈ acc
    · rw [if_pos hv] at h
      rcases ih acc u h with h | h
      · exact Or.inl h
      · exact Or.inr (List.mem_cons_of_mem v h)
    · rw [if_neg hv] at h
      rcases ih _ u h with h | h
      · rcases List.mem_append.mp h with h | h
        · exact Or.inl h
        · simp at h
          rw [h]
          exact Or.inr (List.mem_cons_self v vs)
      · exact Or.inr (List.mem_cons_of_mem v h)

theorem collectResultsAux_mem :
    ∀ (ps : List Soup) (acc : List String) (u : String),
      u ∈ collectResultsAux acc ps →
      u ∈ acc ∨ ∃ p ∈ ps, u ∈ parse_results_for_detail_urls p := by
  intro ps
  induction ps with
  | nil => intro acc u h; exact Or.inl h
  | cons p ps ih =>
    intro acc u h
    rw [collectResultsAux] at h
    rcases ih _ u h with h | ⟨q, hq, hu⟩
    · rcases appendNew_mem _ _ _ h with h | h
      · exact Or.inl h
      · exact Or.inr ⟨p, List.mem_cons_self p ps, h⟩
    · exact Or.inr ⟨q, List.mem_cons_of_mem p hq, hu⟩

theorem parse_results_urls (s : Soup) (u : String)
    (h : u ∈ parse_results_for_detail_urls s) :
    pyStartsWith u "http" = true ∧
      strContains u "/results/residential/" = true := by
  unfold parse_results_for_detail_urls at h
  have h1 := dedupFirstBy_mem _ h
  rw [List.mem_filter] at h1
  refine ⟨?_, h1.2⟩
  rcases List.mem_map.mp h1.1 with ⟨v, _, hv⟩
  rw [← hv]
  exact make_abs_http v

theorem parse_profile_urls (s : Soup) (u : String)
    (h : u ∈ parse_profile_for_detail_urls s) :
    pyStartsWith u "http" = true ∧
      strContains u "/results/residential/" = true := by
  unfold parse_profile_for_detail_urls at h
  have h1 := dedupFirstBy_mem _ h
  rcases List.mem_append.mp h1 with h2 | h2
  · rcases List.mem_map.mp h2 with ⟨v, hv, hvu⟩
    rw [List.mem_filter] at hv
    have hv2 := hv.1
    rw [List.mem_filter] at hv2
    rw [← hvu]
    exact ⟨make_abs_http v, make_abs_contains v _ hv2.2⟩
  · rcases List.mem_filterMap.mp h2 with ⟨node, _, hn⟩
    unfold nodeResUrl at hn
    cases hE : nodeUrlVal node with
    | none => rw [hE] at hn; cases hn
    | some v =>
      rw [hE] at hn
      cases v with
      | jstr w =>
        have hn2 : (if strContains w "/results/residential/" = true
            then some (make_abs w) else none) = some u := hn
        by_cases hct : strContains w "/results/residential/" = true
        · rw [if_pos hct] at hn2
          injection hn2 with hn2
          rw [← hn2]
          exact ⟨make_abs_http _, make_abs_contains _ _ hct⟩
        · rw [if_neg hct] at hn2
          cases hn2
      | jnull => cases hn
      | jbool b => cases hn
      | jnum n => cases hn
      | jarr xs => cases hn
      | jobj fs => cases hn

/-! ## Lemmas for URL-shaped area parsing -/

theorem pyIndex_append_self (x : String) :
    ∀ (pre rest : List String), x ∉ pre →
      pyIndex x (pre ++ x :: rest) = some pre.length := by
  intro pre
  induction pre with
  | nil => intro rest _; simp [pyIndex]
  | cons a pr ih =>
    intro rest hn
    have ha : ¬(a = x) := by
      intro he
      exact hn (by rw [he]; exact List.mem_cons_self x pr)
    rw [List.cons_append, pyIndex, if_neg ha,
      ih rest (fun hc => hn (List.mem_cons_of_mem a hc))]
    simp

theorem pyIndex_none (x : String) :
    ∀ (l : List String), x ∉ l → pyIndex x l = none := by
  intro l
  induction l with
  | nil => intro _; rfl
  | cons a t ih =>
    intro hn
    have ha : ¬(a = x) := by
      intro he
      exact hn (by rw [he]; exact List.mem_cons_self x t)
    rw [pyIndex, if_neg ha, ih (fun hc => hn (List.mem_cons_of_mem a hc))]
    rfl

theorem getD_append_len :
    ∀ (pre l : List String) (k : Nat) (d : String),
      (pre ++ l).getD (pre.length + k) d = l.getD k d := by
  intro pre
  induction pre with
  | nil => intro l k d; simp
  | cons a pr ih =>
    intro l k d
    rw [List.cons_append]
    have : (a :: pr).length + k = (pr.length + k) + 1 := by
      simp [List.length_cons]
      omega
    rw [this]
    simpa using ih l k d

/-! ## Lemmas about bedroom extraction -/

theorem keyBeds_nonneg {node : List (String × JVal)} {k : String} {v : Int}
    (h : keyBeds node k = some v) : 0 ≤ v := by
  unfold keyBeds at h
  split at h
  · rename_i w heq
    split at h
    · injection h with h
      rw [← h]
      assumption
    · cases h
  · rename_i b heq
    injection h with h
    rw [← h]
    cases b <;> simp
  · rename_i sv heq
    split at h
    · cases hti : to_int sv with
      | none => rw [hti] at h; cases h
      | some n =>
        rw [hti] at h
        injection h with h
        rw [← h]
        exact Int.ofNat_nonneg n
    · cases h
  · cases h

theorem nodeBeds_nonneg {node : List (String × JVal)} {v : Int}
    (h : nodeBeds node = some v) : 0 ≤ v := by
  unfold nodeBeds at h
  cases h1 : keyBeds node "numberOfBedrooms" with
  | none =>
    rw [h1, Option.none_orElse] at h
    exact keyBeds_nonneg h
  | some w =>
    rw [h1, Option.some_orElse] at h
    injection h with h
    rw [← h]
    exact keyBeds_nonneg h1

theorem listFirstSome_mem {γ : Type} :
    ∀ (l : List (Option γ)) (v : γ),
      listFirstSome l = some v → ∃ o ∈ l, o = some v := by
  intro l
  induction l with
  | nil => intro v h; cases h
  | cons o t ih =>
    intro v h
    cases o with
    | some w =>
      rw [listFirstSome] at h
      exact ⟨some w, List.mem_cons_self _ _, h⟩
    | none =>
      rw [listFirstSome] at h
      rcases ih v h with ⟨o2, ho2, he⟩
      exact ⟨o2, List.mem_cons_of_mem _ ho2, he⟩

theorem jsonldBeds_nonneg {s : Soup} {v : Int}
    (h : jsonldBeds s = some v) : 0 ≤ v := by
  unfold jsonldBeds at h
  rcases listFirstSome_mem _ v h with ⟨o, ho, he⟩
  rcases List.mem_map.mp ho with ⟨node, _, hn⟩
  rw [← hn] at he
  exact nodeBeds_nonneg he

theorem extract_beds_nonneg {s : Soup} {text ptype : String} {v : Int}
    (h : extract_beds s text ptype = some v) : 0 ≤ v := by
  unfold extract_beds at h
  cases h1 : jsonldBeds s with
  | some w =>
    rw [h1, Option.some_orElse] at h
    injection h with h
    rw [← h]
    exact jsonldBeds_nonneg h1
  | none =>
    rw [h1, Option.none_orElse] at h
    cases h2 : bedsLabelSearch text.data with
    | some n =>
      rw [h2] at h
      simp only [Option.map_some', Option.some_orElse] at h
      injection h with h
      rw [← h]
      exact Int.ofNat_nonneg n
    | none =>
      rw [h2] at h
      simp only [Option.map_none', Option.none_orElse] at h
      cases h3 : bedsFromSelectors s with
      | some n =>
        rw [h3] at h
        simp only [Option.map_some', Option.some_orElse] at h
        injection h with h
        rw [← h]
        exact Int.ofNat_nonneg n
      | none =>
        rw [h3] at h
        simp only [Option.map_none', Option.none_orElse] at h
        cases h4 : bedsWordSearch text.data with
        | some n =>
          rw [h4] at h
          simp only [Option.map_some', Option.some_orElse] at h
          injection h with h
          rw [← h]
          exact Int.ofNat_nonneg n
        | none =>
          rw [h4] at h
          simp only [Option.map_none', Option.none_orElse] at h
          split at h
          · injection h with h
            rw [← h]
          · cases h

/-! ## Lemmas about title resolution -/

theorem firstTitleCand_spec :
    ∀ (cands : List (Option String)) (t : String),
      firstTitleCand cands = some t →
      t ≠ "" ∧ ∃ raw, t = norm_space raw := by
  intro cands
  induction cands with
  | nil => intro t h; cases h
  | cons o rest ih =>
    intro t h
    cases o with
    | none =>
      rw [firstTitleCand] at h
      exact ih t h
    | some raw =>
      rw [firstTitleCand] at h
      by_cases he : norm_space raw ≠ ""
      · rw [if_pos he] at h
        injection h with h
        rw [← h]
        exact ⟨he, raw, rfl⟩
      · rw [if_neg he] at h
        exact ih t h

theorem resolveTitle_spec {s : Soup} {t : String}
    (h : resolveTitle s = some t) :
    t ≠ "" ∧ ∃ raw, t = norm_space raw := by
  unfold resolveTitle at h
  cases h1 : firstTitleCand s.titleSels with
  | some w =>
    rw [h1] at h
    injection h with h
    rw [← h]
    exact firstTitleCand_spec _ w h1
  | none =>
    rw [h1] at h
    cases h2 : s.docTitle with
    | none => rw [h2] at h; cases h
    | some d =>
      rw [h2] at h
      have h3 : (if norm_space d = "" then none
          else some (norm_space d)) = some t := h
      by_cases he : norm_space d = ""
      · rw [if_pos he] at h3
        cases h3
      · rw [if_neg he] at h3
        injection h3 with h3
        rw [← h3]
        exact ⟨he, d, rfl⟩

/-! ## Inversion of the validator -/

theorem validator_ok_inversion {s : Soup} {url : String} {it : Item}
    (h : extract_complete_item_from_detail s url = Except.ok it) :
    verify_agent_ownership s s.fullText = true ∧
      parse_location_from_url url = some it.area ∧ it.area ≠ "" ∧
      resolveTitle s = some it.title ∧
      extract_price s s.fullText = some it.price ∧
      extract_beds s s.fullText
        (pyLower ((property_type_from_url url).getD "")) = some it.beds ∧
      extract_ref s s.fullText url = some it.ref ∧ it.ref ≠ "" ∧
      it.url = url := by
  unfold extract_complete_item_from_detail at h
  cases hv : verify_agent_ownership s s.fullText
  · rw [hv] at h
    simp at h
  · rw [hv] at h
    simp only [Bool.not_true, Bool.false_eq_true, if_false] at h
    cases ha : parse_location_from_url url with
    | none => rw [ha] at h; cases h
    | some a =>
      rw [ha] at h
      have h2 : (if a = "" then (Except.error "missing_area" : Except String Item)
          else
            match resolveTitle s with
            | none => Except.error "missing_title"
            | some title =>
              match extract_price s s.fullText with
              | none => Except.error "missing_price"
              | some price =>
                match extract_beds s s.fullText
                    (pyLower ((property_type_from_url url).getD "")) with
                | none => Except.error "missing_beds_required_for_residential"
                | some beds =>
                  match extract_ref s s.fullText url with
                  | none => Except.error "missing_ref"
                  | some ref =>
                    if ref = "" then Except.error "missing_ref"
                    else Except.ok ⟨ref, title, url, price, beds, a⟩) =
          Except.ok it := h
      by_cases hae : a = ""
      · rw [if_pos hae] at h2; cases h2
      · rw [if_neg hae] at h2
        cases ht : resolveTitle s with
        | none => rw [ht] at h2; cases h2
        | some title =>
          rw [ht] at h2
          cases hp : extract_price s s.fullText with
          | none => rw [hp] at h2; cases h2
          | some price =>
            rw [hp] at h2
            cases hb : extract_beds s s.fullText
                (pyLower ((property_type_from_url url).getD "")) with
            | none => rw [hb] at h2; cases h2
            | some beds =>
              rw [hb] at h2
              cases hr : extract_ref s s.fullText url with
              | none => rw [hr] at h2; cases h2
              | some ref =>
                rw [hr] at h2
                have h3 : (if ref = ""
                    then (Except.error "missing_ref" : Except String Item)
                    else Except.ok ⟨ref, title, url, price, beds, a⟩) =
                    Except.ok it := h2
                by_cases hre : ref = ""
                · rw [if_pos hre] at h3; cases h3
                · rw [if_neg hre] at h3
                  injection h3 with h3
                  rw [← h3]
                  exact ⟨rfl, rfl, hae, rfl, rfl, rfl, rfl, hre, rfl⟩

theorem validator_error_spec (s : Soup) (url : String) (r : String) :
    extract_complete_item_from_detail s url = Except.error r ↔
      specFirstFailure s url = some r := by
  unfold extract_complete_item_from_detail specFirstFailure
  cases hv : verify_agent_ownership s s.fullText
  · simp [hv]
  · simp only [hv, Bool.not_true, Bool.false_eq_true, if_false]
    cases ha : parse_location_from_url url with
    | none => simp
    | some a =>
      by_cases hae : a = ""
      · simp [hae]
      · simp only [hae, if_false, ite_false, if_neg hae]
        cases ht : resolveTitle s with
        | none => simp [Option.isNone]
        | some title =>
          simp only [Option.isNone, Bool.false_eq_true, if_false]
          cases hp : extract_price s s.fullText with
          | none => simp [Option.isNone]
          | some price =>
            simp only [Option.isNone, Bool.false_eq_true, if_false]
            cases hb : extract_beds s s.fullText
                (pyLower ((property_type_from_url url).getD "")) with
            | none => simp [Option.isNone]
            | some beds =>
              simp only [Option.isNone, Bool.false_eq_true, if_false]
              cases hr : extract_ref s s.fullText url with
              | none => simp
              | some ref =>
                by_cases hre : ref = ""
                · simp [hre]
                · simp [hre]

theorem specFirstFailure_mem {s : Soup} {url r : String}
    (h : specFirstFailure s url = some r) : r ∈ codeReasons := by
  unfold specFirstFailure at h
  by_cases h1 : (!verify_agent_ownership s s.fullText) = true
  · rw [if_pos h1] at h
    injection h with h
    rw [← h]; decide
  · rw [if_neg h1] at h
    by_cases h2 : (match parse_location_from_url url with
        | none => true
        | some a => decide (a = "")) = true
    · rw [if_pos h2] at h
      injection h with h
      rw [← h]; decide
    · rw [if_neg h2] at h
      by_cases h3 : (resolveTitle s).isNone = true
      · rw [if_pos h3] at h
        injection h with h
        rw [← h]; decide
      · rw [if_neg h3] at h
        by_cases h4 : (extract_price s s.fullText).isNone = true
        · rw [if_pos h4] at h
          injection h with h
          rw [← h]; decide
        · rw [if_neg h4] at h
          by_cases h5 : (extract_beds s s.fullText
              (pyLower ((property_type_from_url url).getD ""))).isNone = true
          · rw [if_pos h5] at h
            injection h with h
            rw [← h]; decide
          · rw [if_neg h5] at h
            by_cases h6 : (match extract_ref s s.fullText url with
                | none => true
                | some r => decide (r = "")) = true
            · rw [if_pos h6] at h
              injection h with h
              rw [← h]; decide
            · rw [if_neg h6] at h
              cases h

theorem specFirstFailure_beds {s : Soup} {url : String}
    (h : specFirstFailure s url = some "missing_beds_required_for_residential") :
    (extract_beds s s.fullText
      (pyLower ((property_type_from_url url).getD ""))).isNone = true := by
  unfold specFirstFailure at h
  by_cases h1 : (!verify_agent_ownership s s.fullText) = true
  · rw [if_pos h1] at h
    injection h with h
    exact absurd h (by decide)
  · rw [if_neg h1] at h
    by_cases h2 : (match parse_location_from_url url with
        | none => true
        | some a => decide (a = "")) = true
    · rw [if_pos h2] at h
      injection h with h
      exact absurd h (by decide)
    · rw [if_neg h2] at h
      by_cases h3 : (resolveTitle s).isNone = true
      · rw [if_pos h3] at h
        injection h with h
        exact absurd h (by decide)
      · rw [if_neg h3] at h
        by_cases h4 : (extract_price s s.fullText).isNone = true
        · rw [if_pos h4] at h
          injection h with h
          exact absurd h (by decide)
        · rw [if_neg h4] at h
          by_cases h5 : (extract_beds s s.fullText
              (pyLower ((property_type_from_url url).getD ""))).isNone = true
          · exact h5
          · rw [if_neg h5] at h
            by_cases h6 : (match extract_ref s s.fullText url with
                | none => true
                | some r => decide (r = "")) = true
            · rw [if_pos h6] at h
              injection h with h
              exact absurd h (by decide)
            · rw [if_neg h6] at h
              cases h

/-! ## Lemmas about price extraction -/

theorem priceFromMeta_pos {o : Option String} {p : Nat}
    (h : priceFromMeta o = some p) : 0 < p := by
  unfold priceFromMeta at h
  cases o with
  | none => cases h
  | some c =>
    have h2 : (if c ≠ "" then
        (match to_int_money c with
         | some q => if q ≠ 0 then some q else none
         | none => none)
        else none) = some p := h
    by_cases hc : c ≠ ""
    · rw [if_pos hc] at h2
      cases hm : to_int_money c with
      | none => rw [hm] at h2; cases h2
      | some q =>
        rw [hm] at h2
        have h3 : (if q ≠ 0 then some q else none) = some p := h2
        by_cases hq : q ≠ 0
        · rw [if_pos hq] at h3
          injection h3 with h3
          rw [← h3]
          exact Nat.pos_of_ne_zero hq
        · rw [if_neg hq] at h3
          cases h3
    · rw [if_neg hc] at h2
      cases h2

theorem priceFromSel_pos {o : Option String} {p : Nat}
    (h : priceFromSel o = some p) : 0 < p := by
  unfold priceFromSel at h
  cases o with
  | none => cases h
  | some t =>
    have h2 : (match to_int_money t with
         | some q => if q ≠ 0 then some q else none
         | none => none) = some p := h
    cases hm : to_int_money t with
    | none => rw [hm] at h2; cases h2
    | some q =>
      rw [hm] at h2
      have h3 : (if q ≠ 0 then some q else none) = some p := h2
      by_cases hq : q ≠ 0
      · rw [if_pos hq] at h3
        injection h3 with h3
        rw [← h3]
        exact Nat.pos_of_ne_zero hq
      · rw [if_neg hq] at h3
        cases h3

/-! ## Claim theorems -/

/-- C1 (amended): in `fetch_stock.py`, every record the validator emits
has all six fields resolved — `ref`, `title` and `area` are non-empty
strings, `url` is the processed URL, `price` is a parsed digit string
(a `Nat` by construction) and `beds` is non-negative; no partial record
is emitted.  (`fetch_stock1.py`, also cited by the claim, violates the
invariant: see the counterexample.) -/
theorem claim_C1_complete_fields :
    ∀ (s : Soup) (url : String) (it : Item),
      extract_complete_item_from_detail s url = Except.ok it →
      it.ref ≠ "" ∧ it.title ≠ "" ∧ it.area ≠ "" ∧ it.url = url ∧
        0 ≤ it.beds := by
  intro s url it h
  obtain ⟨_, _, hae, ht, _, hb, _, hre, hu⟩ := validator_ok_inversion h
  exact ⟨hre, (resolveTitle_spec ht).1, hae, hu, extract_beds_nonneg hb⟩

/-- Witness for C1: the fully resolved record of a concrete page. -/
theorem claim_C1_witness :
    itemA.ref ≠ "" ∧ itemA.title ≠ "" ∧ itemA.area ≠ "" ∧
      itemA.url = urlA ∧ 0 ≤ itemA.beds :=
  claim_C1_complete_fields soupA urlA itemA (by rfl)

/-- Counterexample to C1 as stated: `fetch_stock1.py` writes to its
catalog a record whose `price`, `beds` and `ref` are all absent. -/
theorem claim_C1_counterexample :
    stock1Catalog [soup1A] = [item1A] ∧ item1A.price = none ∧
      item1A.beds = none ∧ item1A.ref = none :=
  ⟨by rfl, rfl, rfl, rfl⟩

/-- C2: when the whole bedroom cascade (JSON-LD, labelled row, bed
blocks, bed phrase) yields nothing, a URL whose property type is in
the no-bedrooms set gets `beds = 0` and the page is never rejected for
missing beds, while a residential or unknown type gets `beds` absent
and the page can never validate. -/
theorem claim_C2_beds_fallback :
    ∀ (s : Soup) (url : String),
      jsonldBeds s = none → bedsLabelSearch s.fullText.data = none →
      bedsFromSelectors s = none → bedsWordSearch s.fullText.data = none →
      (pyLower ((property_type_from_url url).getD "") ∈ TYPES_NO_BEDS →
        extract_beds s s.fullText
            (pyLower ((property_type_from_url url).getD "")) = some 0 ∧
        extract_complete_item_from_detail s url ≠
          Except.error "missing_beds_required_for_residential") ∧
      (pyLower ((property_type_from_url url).getD "") ∉ TYPES_NO_BEDS →
        extract_beds s s.fullText
            (pyLower ((property_type_from_url url).getD "")) = none ∧
        ∀ it : Item,
          extract_complete_item_from_detail s url ≠ Except.ok it) := by
  intro s url h1 h2 h3 h4
  have hbeds : ∀ pt : String,
      extract_beds s s.fullText pt =
        (if pt ∈ TYPES_NO_BEDS then some 0 else none) := by
    intro pt
    unfold extract_beds
    rw [h1, Option.none_orElse, h2, Option.map_none', Option.none_orElse,
      h3, Option.map_none', Option.none_orElse, h4, Option.map_none',
      Option.none_orElse]
  constructor
  · intro hmem
    have hb0 : extract_beds s s.fullText
        (pyLower ((property_type_from_url url).getD "")) = some 0 := by
      rw [hbeds, if_pos hmem]
    refine ⟨hb0, ?_⟩
    intro he
    have hspec := (validator_error_spec s url _).mp he
    have := specFirstFailure_beds hspec
    rw [hb0] at this
    cases this
  · intro hmem
    have hbn : extract_beds s s.fullText
        (pyLower ((property_type_from_url url).getD "")) = none := by
      rw [hbeds, if_neg hmem]
    refine ⟨hbn, ?_⟩
    intro it hok
    obtain ⟨_, _, _, _, _, hb, _, _, _⟩ := validator_ok_inversion hok
    rw [hbn] at hb
    cases hb

/-- Witness for C2: a page with no bedroom signal, once with a
`vacant-land` URL (beds 0, accepted) and once with a `house` URL
(rejected). -/
theorem claim_C2_witness :
    extract_beds soupD soupD.fullText "vacant-land" = some 0 ∧
      extract_beds soupD soupD.fullText "house" = none := by
  have hland := claim_C2_beds_fallback soupD urlDLand
    (by rfl) (by rfl) (by rfl) (by rfl)
  have hhouse := claim_C2_beds_fallback soupD urlDHouse
    (by rfl) (by rfl) (by rfl) (by rfl)
  exact ⟨(hland.1 (by decide)).1, (hhouse.2 (by decide)).1⟩

/-- The transaction-segment index when `for-sale` occurs first at
position `pre.length`. -/
theorem saleIndex_forSale (url : String) (pre l : List String)
    (hparts : urlPathParts url = pre ++ "for-sale" :: l)
    (hpre : "for-sale" ∉ pre) :
    saleIndex (urlPathParts url) = some pre.length := by
  unfold saleIndex
  rw [hparts, pyIndex_append_self "for-sale" pre _ hpre]

/-- The transaction-segment index when `for-sale` is absent and
`to-let` occurs first at position `pre.length` (the branch order of
both scripts: `for-sale` is looked up first). -/
theorem saleIndex_toLet (url : String) (pre l : List String)
    (hparts : urlPathParts url = pre ++ "to-let" :: l)
    (hfs : "for-sale" ∉ urlPathParts url)
    (hpre : "to-let" ∉ pre) :
    saleIndex (urlPathParts url) = some pre.length := by
  unfold saleIndex
  rw [pyIndex_none _ _ hfs]
  show pyIndex "to-let" (urlPathParts url) = some pre.length
  rw [hparts, pyIndex_append_self "to-let" pre _ hpre]

/-- Both parsers on a path whose transaction segment (at the index
`saleIndex` selects) is followed by at least two more segments. -/
theorem area_parsers_two_after (url : String) (pre : List String)
    (seg c a : String) (rest : List String)
    (hparts : urlPathParts url = pre ++ seg :: c :: a :: rest)
    (hidx : saleIndex (urlPathParts url) = some pre.length) :
    parse_location_from_url url = some (slugToArea a) ∧
      area_from_url url = (if a = "" then none else some (slugToArea a)) := by
  have hgt : (urlPathParts url).length > pre.length + 2 := by
    rw [hparts]
    simp [List.length_append]
  have hget : (urlPathParts url).getD (pre.length + 2) "" = a := by
    rw [hparts, getD_append_len]
    rfl
  constructor
  · unfold parse_location_from_url
    rw [hidx]
    show (if (urlPathParts url).length > pre.length + 2 then
        some (slugToArea ((urlPathParts url).getD (pre.length + 2) ""))
      else none) = some (slugToArea a)
    rw [if_pos hgt, hget]
  · unfold area_from_url
    rw [hidx]
    show (match (if (urlPathParts url).length > pre.length + 2 then
            some ((urlPathParts url).getD (pre.length + 2) "")
          else if (urlPathParts url).length > pre.length + 1 then
            some ((urlPathParts url).getD (pre.length + 1) "")
          else none) with
        | some s => if s = "" then none else some (slugToArea s)
        | none => none) = (if a = "" then none else some (slugToArea a))
    rw [if_pos hgt, hget]

/-- Both parsers on a path whose transaction segment is followed by
exactly one more segment: `parse_location_from_url` gives up,
`area_from_url` falls back to that segment. -/
theorem area_parsers_one_after (url : String) (pre : List String)
    (seg c : String)
    (hparts : urlPathParts url = pre ++ [seg, c])
    (hidx : saleIndex (urlPathParts url) = some pre.length) :
    parse_location_from_url url = none ∧
      area_from_url url = (if c = "" then none else some (slugToArea c)) := by
  have hlen : (urlPathParts url).length = pre.length + 2 := by
    rw [hparts]
    simp [List.length_append]
  have hn2 : ¬ (urlPathParts url).length > pre.length + 2 := by
    rw [hlen]; omega
  have hg1 : (urlPathParts url).length > pre.length + 1 := by
    rw [hlen]; omega
  have hget : (urlPathParts url).getD (pre.length + 1) "" = c := by
    rw [hparts, getD_append_len]
    rfl
  constructor
  · unfold parse_location_from_url
    rw [hidx]
    show (if (urlPathParts url).length > pre.length + 2 then
        some (slugToArea ((urlPathParts url).getD (pre.length + 2) ""))
      else none) = none
    rw [if_neg hn2]
  · unfold area_from_url
    rw [hidx]
    show (match (if (urlPathParts url).length > pre.length + 2 then
            some ((urlPathParts url).getD (pre.length + 2) "")
          else if (urlPathParts url).length > pre.length + 1 then
            some ((urlPathParts url).getD (pre.length + 1) "")
          else none) with
        | some s => if s = "" then none else some (slugToArea s)
        | none => none) = (if c = "" then none else some (slugToArea c))
    rw [if_neg hn2, if_pos hg1, hget]

/-- Both parsers on a path whose transaction segment is the last
segment: both give absent. -/
theorem area_parsers_zero_after (url : String) (pre : List String)
    (seg : String)
    (hparts : urlPathParts url = pre ++ [seg])
    (hidx : saleIndex (urlPathParts url) = some pre.length) :
    parse_location_from_url url = none ∧ area_from_url url = none := by
  have hlen : (urlPathParts url).length = pre.length + 1 := by
    rw [hparts]
    simp [List.length_append]
  have hn2 : ¬ (urlPathParts url).length > pre.length + 2 := by
    rw [hlen]; omega
  have hn1 : ¬ (urlPathParts url).length > pre.length + 1 := by
    rw [hlen]; omega
  constructor
  · unfold parse_location_from_url
    rw [hidx]
    show (if (urlPathParts url).length > pre.length + 2 then
        some (slugToArea ((urlPathParts url).getD (pre.length + 2) ""))
      else none) = none
    rw [if_neg hn2]
  · unfold area_from_url
    rw [hidx]
    show (match (if (urlPathParts url).length > pre.length + 2 then
            some ((urlPathParts url).getD (pre.length + 2) "")
          else if (urlPathParts url).length > pre.length + 1 then
            some ((urlPathParts url).getD (pre.length + 1) "")
          else none) with
        | some s => if s = "" then none else some (slugToArea s)
        | none => none) = none
    rw [if_neg hn2, if_neg hn1]

/-- C3 (amended): both area parsers are pure functions of the URL
path, for `for-sale` and `to-let` alike (the code looks up `for-sale`
first, so the `to-let` cases assume no `for-sale` segment).  With at
least two segments after the transaction segment both return the
title-cased, space-joined second one; with no `for-sale`/`to-let`
segment, or a transaction segment that is the last segment, both
return absent; but with exactly one following segment
`parse_location_from_url` (fetch_stock.py) returns absent while
`area_from_url` (fetch_stock1.py) falls back to that segment. -/
theorem claim_C3_area_from_url :
    (∀ (url : String) (pre : List String) (c a : String)
        (rest : List String),
      urlPathParts url = pre ++ "for-sale" :: c :: a :: rest →
      "for-sale" ∉ pre →
      parse_location_from_url url = some (slugToArea a) ∧
      area_from_url url = (if a = "" then none else some (slugToArea a))) ∧
    (∀ (url : String) (pre : List String) (c a : String)
        (rest : List String),
      urlPathParts url = pre ++ "to-let" :: c :: a :: rest →
      "for-sale" ∉ urlPathParts url → "to-let" ∉ pre →
      parse_location_from_url url = some (slugToArea a) ∧
      area_from_url url = (if a = "" then none else some (slugToArea a))) ∧
    (∀ (url : String) (pre : List String) (c : String),
      urlPathParts url = pre ++ ["for-sale", c] → "for-sale" ∉ pre →
      parse_location_from_url url = none ∧
      area_from_url url = (if c = "" then none else some (slugToArea c))) ∧
    (∀ (url : String) (pre : List String) (c : String),
      urlPathParts url = pre ++ ["to-let", c] →
      "for-sale" ∉ urlPathParts url → "to-let" ∉ pre →
      parse_location_from_url url = none ∧
      area_from_url url = (if c = "" then none else some (slugToArea c))) ∧
    (∀ (url : String) (pre : List String),
      urlPathParts url = pre ++ ["for-sale"] → "for-sale" ∉ pre →
      parse_location_from_url url = none ∧ area_from_url url = none) ∧
    (∀ (url : String) (pre : List String),
      urlPathParts url = pre ++ ["to-let"] →
      "for-sale" ∉ urlPathParts url → "to-let" ∉ pre →
      parse_location_from_url url = none ∧ area_from_url url = none) ∧
    (∀ url : String,
      "for-sale" ∉ urlPathParts url → "to-let" ∉ urlPathParts url →
      parse_location_from_url url = none ∧ area_from_url url = none) := by
  refine ⟨?_, ?_, ?_, ?_, ?_, ?_, ?_⟩
  · intro url pre c a rest hparts hpre
    exact area_parsers_two_after url pre "for-sale" c a rest hparts
      (saleIndex_forSale url pre _ hparts hpre)
  · intro url pre c a rest hparts hfs hpre
    exact area_parsers_two_after url pre "to-let" c a rest hparts
      (saleIndex_toLet url pre _ hparts hfs hpre)
  · intro url pre c hparts hpre
    exact area_parsers_one_after url pre "for-sale" c hparts
      (saleIndex_forSale url pre _ hparts hpre)
  · intro url pre c hparts hfs hpre
    exact area_parsers_one_after url pre "to-let" c hparts
      (saleIndex_toLet url pre _ hparts hfs hpre)
  · intro url pre hparts hpre
    exact area_parsers_zero_after url pre "for-sale" hparts
      (saleIndex_forSale url pre _ hparts hpre)
  · intro url pre hparts hfs hpre
    exact area_parsers_zero_after url pre "to-let" hparts
      (saleIndex_toLet url pre _ hparts hfs hpre)
  · intro url h1 h2
    have hidx : saleIndex (urlPathParts url) = none := by
      unfold saleIndex
      rw [pyIndex_none _ _ h1, pyIndex_none _ _ h2]
    constructor
    · unfold parse_location_from_url
      rw [hidx]
    · unfold area_from_url
      rw [hidx]

/-- Witness for C3 on a concrete `for-sale` URL and a concrete
`to-let` URL. -/
theorem claim_C3_witness :
    parse_location_from_url urlA = some "Sandton Central" ∧
      area_from_url urlA = some "Sandton Central" ∧
      parse_location_from_url urlT = some "Rosebank" ∧
      area_from_url urlT = some "Rosebank" := by
  have h1 := claim_C3_area_from_url.1 urlA ["results", "residential"]
    "johannesburg" "sandton-central" ["house", "123456"] (by rfl) (by decide)
  have h2 := claim_C3_area_from_url.2.1 urlT ["results", "residential"]
    "johannesburg" "rosebank" ["apartment", "777777"] (by rfl) (by decide)
    (by decide)
  exact ⟨h1.1, h1.2, h2.1, h2.2⟩

/-- Counterexample to C3 as stated: a URL with only one segment after
`for-sale` — the claim says area is absent with no fallback, but
`area_from_url` falls back to that segment. -/
theorem claim_C3_counterexample :
    area_from_url
        "https://www.huizemark.com/results/residential/for-sale/sandton/" =
      some "Sandton" ∧
    parse_location_from_url
        "https://www.huizemark.com/results/residential/for-sale/sandton/" =
      none :=
  ⟨by rfl, by rfl⟩

/-- C4 (amended): the metadata and CSS branches of `extract_price`
treat a zero/empty normalization as no match, but the final money-regex
branch returns the normalized value directly, so `extract_price` can
return `0`; any positive result is genuine, and a zero result can only
come from the regex branch. -/
theorem claim_C4_price_zero :
    (∀ o : Option String, priceFromMeta o ≠ some 0) ∧
    (∀ o : Option String, priceFromSel o ≠ some 0) ∧
    (∀ (s : Soup) (text : String) (n : Nat),
      extract_price s text = some n →
      0 < n ∨ (n = 0 ∧ extractPriceRegex text = some 0)) := by
  refine ⟨?_, ?_, ?_⟩
  · intro o h
    exact absurd (priceFromMeta_pos h) (by omega)
  · intro o h
    exact absurd (priceFromSel_pos h) (by omega)
  · intro s text n h
    unfold extract_price at h
    cases h1 : priceFromMeta s.metaItempropPrice with
    | some p =>
      rw [h1, Option.some_orElse] at h
      injection h with h
      rw [← h]
      exact Or.inl (priceFromMeta_pos h1)
    | none =>
      rw [h1, Option.none_orElse] at h
      cases h2 : priceFromSel s.priceSel1 with
      | some p =>
        rw [h2, Option.some_orElse] at h
        injection h with h
        rw [← h]
        exact Or.inl (priceFromSel_pos h2)
      | none =>
        rw [h2, Option.none_orElse] at h
        cases h3 : priceFromSel s.priceSel2 with
        | some p =>
          rw [h3, Option.some_orElse] at h
          injection h with h
          rw [← h]
          exact Or.inl (priceFromSel_pos h3)
        | none =>
          rw [h3, Option.none_orElse] at h
          cases h4 : priceFromSel s.priceSel3 with
          | some p =>
            rw [h4, Option.some_orElse] at h
            injection h with h
            rw [← h]
            exact Or.inl (priceFromSel_pos h4)
          | none =>
            rw [h4, Option.none_orElse] at h
            rcases Nat.eq_zero_or_pos n with hz | hp
            · rw [hz] at h ⊢
              exact Or.inr ⟨rfl, h⟩
            · exact Or.inl hp

/-- Witness for C4: the zero price of the concrete page comes from the
regex branch. -/
theorem claim_C4_witness : extractPriceRegex soupC.fullText = some 0 := by
  have h := claim_C4_price_zero.2.2 soupC soupC.fullText 0 (by rfl)
  rcases h with h | h
  · exact absurd h (by omega)
  · exact h.2

/-- Counterexample to C4 as stated: a page whose only price evidence is
`R 0` receives price `0` and a complete record, instead of a
`missing_price` rejection. -/
theorem claim_C4_counterexample :
    extract_price soupC soupC.fullText = some 0 ∧
      extract_complete_item_from_detail soupC urlC = Except.ok itemC ∧
      itemC.price = 0 :=
  ⟨by rfl, by rfl, rfl⟩

/-- C5 (amended): every outcome of per-candidate processing is a
complete record or a rejection whose reason is exactly one of
`not_owned_by_agent_75570` (the code string; the claim wrote
`not_owned_by_agent`), `missing_area`, `missing_title`,
`missing_price`, `missing_beds_required_for_residential`,
`missing_ref`, `detail_fetch_failed`; and the validator rejects with
precisely the reason of the first failing check in the fixed order
ownership, area, title, price, beds, ref. -/
theorem claim_C5_reasons :
    (∀ (page : Option Soup) (url r : String),
      processCandidate page url = Except.error r → r ∈ codeReasons) ∧
    (∀ (s : Soup) (url r : String),
      extract_complete_item_from_detail s url = Except.error r ↔
        specFirstFailure s url = some r) := by
  constructor
  · intro page url r h
    cases page with
    | none =>
      unfold processCandidate at h
      injection h with h
      rw [← h]; decide
    | some s =>
      unfold processCandidate at h
      exact specFirstFailure_mem ((validator_error_spec s url r).mp h)
  · exact validator_error_spec

/-- Witness for C5: the ownership rejection of a concrete page carries
the first-failing-check reason and that reason is in the emitted set. -/
theorem claim_C5_witness :
    "not_owned_by_agent_75570" ∈ codeReasons ∧
      specFirstFailure soupB urlB = some "not_owned_by_agent_75570" :=
  ⟨claim_C5_reasons.1 (some soupB) urlB _ (by rfl),
   (claim_C5_reasons.2 soupB urlB _).mp (by rfl)⟩

/-- Counterexample to C5 as stated: the ownership rejection reason the
code emits is not in the list of reasons the claim allows. -/
theorem claim_C5_counterexample :
    extract_complete_item_from_detail soupB urlB =
        Except.error "not_owned_by_agent_75570" ∧
      "not_owned_by_agent_75570" ∉ claimedReasons :=
  ⟨by rfl, by decide⟩

/-- C6: reference extraction prefers a labelled match — whenever the
labelled pattern matches the page text, `extract_ref` returns exactly
that candidate, upper-cased, never a bare number. -/
theorem claim_C6_ref_labelled :
    ∀ (s : Soup) (text url g : String),
      refLabelledSearch text.data = some g →
      extract_ref s text url = some (pyUpper g) := by
  intro s text url g h
  unfold extract_ref
  rw [h]

/-- Witness for C6: text holding both `Web Ref: ab12345` and the
unrelated standalone six-digit number `654321`. -/
theorem claim_C6_witness :
    refLabelledSearch textRef.data = some "ab12345" ∧
      extract_ref soupB textRef "" = some "AB12345" :=
  ⟨by rfl, claim_C6_ref_labelled soupB textRef "" "ab12345" (by rfl)⟩

/-- C7 (amended): in `fetch_stock.py` the final catalog step
de-duplicates by URL and sorts by the pair (price, title) descending —
title is the tie-break key, also descending; `fetch_stock1.py` (also
cited) sorts by price alone, so equal-price records keep input order
(see the counterexample). -/
theorem claim_C7_sorted :
    ∀ l : List Item,
      List.Sorted itemGE (catalogStep l) ∧
        ((catalogStep l).map Item.url).Nodup := by
  intro l
  refine ⟨sortItems_sorted _, ?_⟩
  have hperm := sortItems_perm (dedupFirstBy Item.url l)
  exact ((hperm.map Item.url).nodup_iff).mpr (dedupFirstBy_key_nodup Item.url l)

/-- Counterexample to C7 as stated: `fetch_stock1.py` leaves two
equal-price records in input order, whichever it is, so the title is
not a tie-break key in either direction. -/
theorem claim_C7_counterexample :
    sortItems1 [it1, it2] = [it1, it2] ∧
      sortItems1 [it2, it1] = [it2, it1] ∧
      it1.price = it2.price ∧ it1.title ≠ it2.title ∧
      sortedPriceTitleDesc1 (sortItems1 [it1, it2]) = false ∧
      sortedPriceTitleAsc1 (sortItems1 [it2, it1]) = false :=
  ⟨by rfl, by rfl, rfl, by decide, by rfl, by rfl⟩

/-- C8: the sort-and-first-occurrence-deduplicate-by-URL step is
idempotent, both on records and on candidate URL lists. -/
theorem claim_C8_idempotent :
    (∀ items : List Item, catalogStep (catalogStep items) = catalogStep items) ∧
    (∀ urls : List String,
      dedupFirstBy (fun u => u) (dedupFirstBy (fun u => u) urls) =
        dedupFirstBy (fun u => u) urls) := by
  constructor
  · intro items
    unfold catalogStep
    have hnd := dedupFirstBy_key_nodup Item.url items
    have hperm := sortItems_perm (dedupFirstBy Item.url items)
    have hnd2 : ((sortItems (dedupFirstBy Item.url items)).map Item.url).Nodup :=
      ((hperm.map Item.url).nodup_iff).mpr hnd
    rw [dedupFirstBy_eq_self Item.url hnd2]
    exact sortItems_of_sorted (sortItems_sorted _)
  · intro urls
    exact dedupFirstBy_eq_self (fun u => u)
      (dedupFirstBy_key_nodup (fun u => u) urls)

/-- C9: every URL in the merged candidate list starts with `http`,
holds the path fragment `/results/residential/`, and the list is
pairwise distinct. -/
theorem claim_C9_candidates :
    ∀ (profilePage : Option Soup) (resultPages : List Soup),
      (mergedCandidates profilePage resultPages).Nodup ∧
      ∀ u ∈ mergedCandidates profilePage resultPages,
        pyStartsWith u "http" = true ∧
          strContains u "/results/residential/" = true := by
  intro pp rs
  constructor
  · have h := dedupFirstBy_key_nodup (fun u : String => u)
      (collect_from_profile pp ++ collect_from_results rs)
    simpa using h
  · intro u hu
    have h1 := dedupFirstBy_mem (fun u : String => u) hu
    rcases List.mem_append.mp h1 with h2 | h2
    · cases pp with
      | none => simp [collect_from_profile] at h2
      | some s => exact parse_profile_urls s u h2
    · unfold collect_from_results at h2
      rcases collectResultsAux_mem rs [] u h2 with h3 | ⟨p, _, h3⟩
      · simp at h3
      · exact parse_results_urls p u h3

/-- Witness for C9 on one concrete profile page and one results page. -/
theorem claim_C9_witness :
    pyStartsWith
        "https://www.huizemark.com/results/residential/for-sale/aville/bburb/house/11111/"
        "http" = true ∧
      strContains
        "https://www.huizemark.com/results/residential/for-sale/aville/bburb/house/11111/"
        "/results/residential/" = true :=
  (claim_C9_candidates (some soupProf) [soupRes]).2 _ (by
    rw [show mergedCandidates (some soupProf) [soupRes] =
      ["https://www.huizemark.com/results/residential/for-sale/aville/bburb/house/11111/",
       "https://www.huizemark.com/results/residential/for-sale/aville/bburb/house/22222/"]
      from rfl]
    exact List.mem_cons_self _ _)

/-- C10: `norm_space` is idempotent, its output has no leading or
trailing whitespace and no two adjacent whitespace characters, and
every title of an emitted record is in this normalized form. -/
theorem claim_C10_norm_space :
    (∀ s : String, norm_space (norm_space s) = norm_space s ∧
      isNormalizedWs (norm_space s) = true) ∧
    (∀ (s : Soup) (url : String) (it : Item),
      extract_complete_item_from_detail s url = Except.ok it →
      isNormalizedWs it.title = true) := by
  refine ⟨fun s => ⟨norm_space_idem s, norm_space_normalized s⟩, ?_⟩
  intro s url it h
  obtain ⟨_, _, _, ht, _⟩ := validator_ok_inversion h
  rcases (resolveTitle_spec ht).2 with ⟨raw, hraw⟩
  rw [hraw]
  exact norm_space_normalized raw

/-- Witness for C10 on a concrete string and the concrete record of
`soupA`. -/
theorem claim_C10_witness :
    norm_space (norm_space "  a   b ") = norm_space "  a   b " ∧
      isNormalizedWs itemA.title = true :=
  ⟨(claim_C10_norm_space.1 "  a   b ").1,
   claim_C10_norm_space.2 soupA urlA itemA (by rfl)⟩

end FetchStock

